import Mathlib

/-!
Shallow embedding of the DSL-suggestions rule engine.

Sources embedded here:
  * `Rules/dslRuleUtilities.js` (the `DSLRuleUtils` object: string-literal
    masking, in-string position test, placeholder substitution),
  * the consolidated `dslRules.js` (the `DSL_RULES` array of 8 rules with
    per-rule `_instanceCounter` state, `check` and `fix` operations),
  * `dslSuggestionsEngine.js` v3.00 (`analyzeDSL`, `applyConfigDefaults`,
    `getCurrentFormSelection`, `applyCodeSuggestions`).

Modelling conventions:
  * JS strings are `List Char`; splitting on a newline, trimming, `indexOf`
    and the various hand-compiled regular expressions operate on such lists.
  * JS regular expressions are compiled by hand into executable matchers
    that reproduce the engine's observable behaviour (leftmost match, the
    `lastIndex` advance of a global `exec` loop, ordered alternation,
    greedy repetition with the backtracking that each concrete pattern can
    actually exercise).  Configuration-supplied fragments (wrapper function
    names, library names, variable names) are interpolated into those
    patterns unescaped by the source; the model matches them literally,
    which coincides with the source whenever they are plain identifiers.
  * Fields that a JS config object may simply not have are `Option`s, and
    JS truthiness tests (`!ruleConfig.enabled`, `severity || 'warning'`,
    `!suggestion.original`) are modelled including their falsy edge cases
    (absent, `false`, the empty string, `0`).
  * Fallible field accesses (reading a property of `undefined`) and the
    one genuinely throwing code path (the division rule's `fix` passing a
    regex match array where `_isAlreadyWrapped` expects an expression
    string, so `DSLRuleUtils.Regex.escape` calls `.replace` on an array)
    are modelled in `Except JsErr`.
  * The mutable per-rule `_instanceCounter` fields are threaded explicitly
    as a `Counters` record through `analyzeDSL` and `applyCodeSuggestions`.
-/

set_option maxRecDepth 20000

namespace DSLSpec

/-- Runtime errors of the embedded JavaScript (property access on
`undefined`, calling a string method on a non-string). -/
inductive JsErr where
  | typeError
  deriving DecidableEq, Repr

/-! ## Character classes used by the hand-compiled regexes -/

/-- The characters that the JS `\s` class (and `String.prototype.trim`)
recognise in the ASCII range; the engine's inputs are ASCII. -/
def isWsChar (c : Char) : Bool :=
  c == ' ' || c == '\t' || c == '\n' || c == '\r' || c == '\x0b' || c == '\x0c'

/-- `[a-zA-Z]` -/
def isAsciiAlpha (c : Char) : Bool :=
  ('a' ≤ c && c ≤ 'z') || ('A' ≤ c && c ≤ 'Z')

/-- `[0-9]` -/
def isAsciiDigit (c : Char) : Bool :=
  '0' ≤ c && c ≤ '9'

/-- `[a-zA-Z_$]`, the identifier-start class used throughout the rules. -/
def isIdentStart (c : Char) : Bool :=
  isAsciiAlpha c || c == '_' || c == '$'

/-- `[a-zA-Z0-9_$]`, the identifier-continuation class. -/
def isIdentChar (c : Char) : Bool :=
  isIdentStart c || isAsciiDigit c

/-- The JS `\w` class `[A-Za-z0-9_]` (note: no `$`), used by `\b`. -/
def isWordChar (c : Char) : Bool :=
  isAsciiAlpha c || isAsciiDigit c || c == '_'

/-- Quote characters recognised by the string-literal scanner. -/
def isQuoteChar (c : Char) : Bool :=
  c == '"' || c == '\''

/-! ## Generic string helpers (`List Char` versions of the JS built-ins) -/

/-- `String.prototype.trim`. -/
def jsTrim (l : List Char) : List Char :=
  ((l.dropWhile isWsChar).reverse.dropWhile isWsChar).reverse

/-- `code.split('\n')`: always returns at least one (possibly empty) line. -/
def splitOnNl : List Char → List (List Char)
  | [] => [[]]
  | c :: rest =>
    if c = '\n' then [] :: splitOnNl rest
    else
      match splitOnNl rest with
      | [] => [[c]]
      | h :: t => (c :: h) :: t

/-- `lines.join('\n')`. -/
def joinNl (ls : List (List Char)) : List Char :=
  match ls with
  | [] => []
  | [l] => l
  | l :: rest => l ++ '\n' :: joinNl rest

/-- First index at which `pat` occurs in `l` (the JS `indexOf`), as an
option.  Searches positions `0 .. l.length`. -/
def findSubIdx (l pat : List Char) : Option Nat :=
  (List.range (l.length + 1)).find? (fun j => pat.isPrefixOf (l.drop j))

/-- `l.indexOf(pat) !== -1`. -/
def containsSub (l pat : List Char) : Bool :=
  (findSubIdx l pat).isSome

/-- Worker for `replaceAll` (the fuel starts at the string's length and
dominates it throughout, so the base case is only reached on the empty
string). -/
def replaceAllAux (pat val : List Char) : Nat → List Char → List Char
  | 0, s => s
  | fuel + 1, s =>
    match s with
    | [] => []
    | c :: rest =>
      if pat ≠ [] ∧ pat.isPrefixOf (c :: rest) then
        val ++ replaceAllAux pat val fuel ((c :: rest).drop pat.length)
      else
        c :: replaceAllAux pat val fuel rest

/-- Leftmost, non-overlapping replacement of every occurrence of the
nonempty pattern `pat` by `val` — the behaviour of the JS
`str.split(pat).join(val)` and of `str.replace(/escaped-pat/g, val)` for a
replacement value without `$`-sequences. -/
def replaceAll (pat val s : List Char) : List Char :=
  replaceAllAux pat val s.length s

/-- Replacement of only the first occurrence of `pat` by `val` — the JS
`str.replace('literal', val)` with a string pattern (again assuming a
replacement value without `$`-sequences). -/
def replaceFirst (pat val : List Char) : List Char → List Char
  | [] => []
  | c :: rest =>
    if pat ≠ [] ∧ pat.isPrefixOf (c :: rest) then
      val ++ (c :: rest).drop pat.length
    else
      c :: replaceFirst pat val rest

/-- Split a list on a separator element (the JS `str.split('.')` /
`str.split('_')`). -/
def splitOnChar (sep : Char) : List Char → List (List Char)
  | [] => [[]]
  | c :: rest =>
    if c = sep then [] :: splitOnChar sep rest
    else
      match splitOnChar sep rest with
      | [] => [[c]]
      | h :: t => (c :: h) :: t

/-- Decimal representation of a `Nat` (the JS number-to-string coercion in
`'DEF_VAL_DIV_BY_ZERO_' + instanceNum`). -/
def natToChars (n : Nat) : List Char :=
  (Nat.repr n).data

/-! ## `DSLRuleUtils.String`: string-literal masking

Translating `removeStringLiterals` / `isInsideString` from
`Rules/dslRuleUtilities.js`.  Both scan left to right toggling an
"in string" flag on an unescaped quote (`line[i-1] !== '\\'`, checked for
the immediately preceding character only); a quote of the other kind
inside a string is ordinary content.  The recursions carry the previous
original character (`prev`), the flag and the current string delimiter. -/

/-- Worker for `removeStringLiterals`. -/
def removeStringLiteralsAux (prev : Option Char) (inString : Bool)
    (stringChar : Option Char) : List Char → List Char
  | [] => []
  | c :: rest =>
    if isQuoteChar c && !(prev == some '\\') then
      if !inString then
        ' ' :: removeStringLiteralsAux (some c) true (some c) rest
      else if some c == stringChar then
        ' ' :: removeStringLiteralsAux (some c) false none rest
      else
        ' ' :: removeStringLiteralsAux (some c) inString stringChar rest
    else if inString then
      ' ' :: removeStringLiteralsAux (some c) inString stringChar rest
    else
      c :: removeStringLiteralsAux (some c) inString stringChar rest

/-- `DSLRuleUtils.String.removeStringLiterals`. -/
def removeStringLiterals (line : List Char) : List Char :=
  removeStringLiteralsAux none false none line

/-- Worker for `isInsideString`: replays the same scan for
`min position (length line)` characters and reports the flag. -/
def isInsideStringAux (prev : Option Char) (inString : Bool)
    (stringChar : Option Char) : List Char → Nat → Bool
  | _, 0 => inString
  | [], _ + 1 => inString
  | c :: rest, p + 1 =>
    if isQuoteChar c && !(prev == some '\\') then
      if !inString then
        isInsideStringAux (some c) true (some c) rest p
      else if some c == stringChar then
        isInsideStringAux (some c) false none rest p
      else
        isInsideStringAux (some c) inString stringChar rest p
    else
      isInsideStringAux (some c) inString stringChar rest p

/-- `DSLRuleUtils.String.isInsideString`. -/
def isInsideString (line : List Char) (position : Nat) : Bool :=
  isInsideStringAux none false none line position

/-- `DSLRuleUtils.Message.replacePlaceholders`: for each key/value pair in
order, replace every literal occurrence of `{key}` via split/join. -/
def replacePlaceholders (template : List Char)
    (values : List (List Char × List Char)) : List Char :=
  values.foldl
    (fun acc kv => replaceAll ('{' :: kv.1 ++ ['}']) kv.2 acc) template

/-! ## The data model: configuration, suggestions, engine state -/

/-- The `fixTemplates` sub-object of a rule configuration. -/
structure FixTemplates where
  traditional : Option (List Char)
  method : Option (List Char)
  deriving DecidableEq, Repr

/-- One rule's configuration object.  Every field is optional because a JS
config object may simply omit it. -/
structure RuleConfig where
  enabled : Option Bool := none
  severity : Option (List Char) := none
  label : Option (List Char) := none
  suggestion : Option (List Char) := none
  autoFixEnabled : Option Bool := none
  fixStyle : Option (List Char) := none
  fixTemplates : Option FixTemplates := none
  skipIfWrappedIn : Option (List (List Char)) := none
  functionNames : Option (List (List Char)) := none
  defaultAltValue : Option (List Char) := none
  deriving DecidableEq, Repr

/-- The `config.suggestionRules` object: one optional entry per rule name
(the rules read it by property access, e.g.
`config.suggestionRules.divisionOperations`). -/
structure SuggestionRules where
  divisionOperations : Option RuleConfig := none
  queryFunctions : Option RuleConfig := none
  uniqueKey : Option RuleConfig := none
  variableNaming : Option RuleConfig := none
  nonOptimalNodeAccess : Option RuleConfig := none
  nullAccessProtection : Option RuleConfig := none
  mathOperationsParens : Option RuleConfig := none
  extraneousBlocks : Option RuleConfig := none
  deriving DecidableEq, Repr

/-- The whole configuration value (`dslSuggestionsConfigData`). -/
structure Config where
  suggestionRules : Option SuggestionRules := none
  defaults : Option RuleConfig := none
  libraries : Option (List (List Char)) := none
  deriving DecidableEq, Repr

/-- The empty object `{}` that the engine substitutes for a missing
config. -/
def emptyConfig : Config := {}

/-- One finding.  `hasDifferentForms`, `original` and `fixed` are fields
that some rules do not put on the object at all (`none`); `fixed` is never
set by the consolidated rules' `check` but is read by `fix`. -/
structure Suggestion where
  line : Nat
  column : Nat
  message : List Char
  severity : List Char
  rule : List Char
  label : List Char
  fixable : Bool
  hasDifferentForms : Option Bool := none
  original : Option (List Char) := none
  fixed : Option (List Char) := none
  instanceNumber : Nat
  deriving DecidableEq, Repr

/-- `results.summary`. -/
structure Summary where
  total : Nat
  byType : List (List Char × Nat)
  bySeverity : List (List Char × Nat)
  deriving DecidableEq, Repr

/-- The value returned by `analyzeDSL`. -/
structure AnalysisResult where
  suggestions : List Suggestion
  summary : Summary
  deriving DecidableEq, Repr

/-- The per-rule mutable `_instanceCounter` fields of the eight shared
rule objects, threaded explicitly. -/
structure Counters where
  division : Nat := 0
  query : Nat := 0
  unique : Nat := 0
  naming : Nat := 0
  nodeAccess : Nat := 0
  nullAccess : Nat := 0
  math : Nat := 0
  blocks : Nat := 0
  deriving DecidableEq, Repr

/-- The browser globals the engine consults: the loaded config and the
form-selection markers read by `getCurrentFormSelection` (and, in the
null-access rule's `fix`, `window.__forceFormSelection`).  The radio
button's value is modelled as an optional string. -/
structure Window where
  configData : Option Config := none
  forceFormSelection : Option (List Char) := none
  currentFormSelection : Option (List Char) := none
  radioSelection : Option (List Char) := none
  deriving DecidableEq, Repr

/-- The `options` argument of `analyzeDSL`. -/
structure Options where
  config : Option Config := none
  deriving DecidableEq, Repr

/-- The context object `analyzeDSL` builds (`{ lines, totalLines,
options }`); `context.isInComment`, which every rule consults, is not set
by the engine, so it is `false` there — the field records the undefined
JS property's truthiness. -/
structure Context where
  lines : List (List Char)
  totalLines : Nat
  isInComment : Bool := false

/-- JS truthiness of an optional boolean field (absent and `false` are
both falsy). -/
def otrue : Option Bool → Bool
  | some b => b
  | none => false

/-- JS `o.field || dflt` for an optional string field: absent and the
empty string both fall back. -/
def orDefault (o : Option (List Char)) (dflt : List Char) : List Char :=
  match o with
  | some s => if s = [] then dflt else s
  | none => dflt

/-- JS `!s` for an optional string field: absent or empty. -/
def strFalsy (o : Option (List Char)) : Bool :=
  match o with
  | some s => s.isEmpty
  | none => true

/-! ## Global-regex execution

A hand-compiled pattern is a function `f : Nat → Option (Nat × α)` giving,
for a start position, the length of the match there together with its
captures.  `execAll` reproduces the `while ((match = re.exec(s)) !== null)`
loop of a `/g` regex: find the leftmost match at or after `lastIndex`,
record it, continue after it.  Every pattern in the engine consumes at
least one character, so the fuel `len + 1` is never exhausted. -/

/-- Leftmost match at a position in `[k, len]`. -/
def firstMatchFrom (f : Nat → Option (Nat × α)) (len k : Nat) :
    Option (Nat × Nat × α) :=
  (List.range' k (len + 1 - k)).findSome?
    (fun j => (f j).map (fun p => (j, p.1, p.2)))

/-- Worker for `execAll`. -/
def execAllAux (f : Nat → Option (Nat × α)) (len : Nat) :
    Nat → Nat → List (Nat × α)
  | 0, _ => []
  | fuel + 1, k =>
    match firstMatchFrom f len k with
    | none => []
    | some (j, matchLen, a) => (j, a) :: execAllAux f len fuel (j + matchLen)

/-- All matches of a global regex over a string of length `len`, as
(index, captures) pairs in match order. -/
def execAll (f : Nat → Option (Nat × α)) (len : Nat) : List (Nat × α) :=
  execAllAux f len (len + 1) 0

/-! ## Shared rule helpers -/

/-- `ruleConfig.fixTemplates && ruleConfig.fixTemplates.traditional !==
ruleConfig.fixTemplates.method`: `none` models the `undefined` the
expression evaluates to when `fixTemplates` is absent. -/
def hasDifferentFormsVal (rc : RuleConfig) : Option Bool :=
  rc.fixTemplates.map (fun ft => ft.traditional != ft.method)

/-- `var template = ruleConfig.fixTemplates && ruleConfig.fixTemplates[fixStyle];
if (!template) template = fallback;` — an unknown `fixStyle` key or an
empty template string also falls back. -/
def selectTemplate (rc : RuleConfig) (fixStyle fallback : List Char) :
    List Char :=
  let t : Option (List Char) :=
    rc.fixTemplates.bind (fun ft =>
      if fixStyle = "traditional".data then ft.traditional
      else if fixStyle = "method".data then ft.method
      else none)
  match t with
  | some tpl => if tpl = [] then fallback else tpl
  | none => fallback

/-- Truthiness of an optional character (for `\b`). -/
def isWordCharOpt : Option Char → Bool
  | some c => isWordChar c
  | none => false

/-- The JS `\b` assertion at position `j`: exactly one of the characters
around the position is a `\w` character (positions outside the string
count as non-word). -/
def wordBoundaryAt (l : List Char) (j : Nat) : Bool :=
  (match j with
   | 0 => false
   | i + 1 => isWordCharOpt (l.get? i)) != isWordCharOpt (l.get? j)

/-- Length of the identifier `[a-zA-Z_$][a-zA-Z0-9_$]*` at the head of
`s`, if any (greedy). -/
def identAt (s : List Char) : Option Nat :=
  match s with
  | c :: rest =>
    if isIdentStart c then some (1 + (rest.takeWhile isIdentChar).length)
    else none
  | [] => none

/-- `pat` occurs at a word boundary on both sides at position `j`
(`/\bpat\b/`). -/
def wbMatchAt (pat l : List Char) (j : Nat) : Option (Nat × Unit) :=
  if pat.isPrefixOf (l.drop j) && wordBoundaryAt l j
      && wordBoundaryAt l (j + pat.length) then
    some (pat.length, ())
  else none

/-- Splice `val` over the listed (ascending, non-overlapping) matches of a
pattern of length `patLen`; worker for the word-boundary replace. -/
def spliceMatches (patLen : Nat) (val code : List Char) :
    Nat → List (Nat × Unit) → List Char
  | i, [] => code.drop i
  | i, (j, _) :: rest =>
    (code.drop i).take (j - i) ++ val ++ spliceMatches patLen val code (j + patLen) rest

/-- `code.replace(new RegExp('\\b' + escape(pat) + '\\b', 'g'), val)`. -/
def replaceWordBounded (pat val code : List Char) : List Char :=
  spliceMatches pat.length val code 0 (execAll (wbMatchAt pat code) code.length)

/-! ## Rule 1: `divisionOperations` (consolidated `dslRules.js`) -/

namespace divisionOperations

def name : List Char := "divisionOperations".data

/-- The positions matched by `/\/(?!=)/g` on a line: every `/` not
followed by `=`.  Each match has length 1, so the global `exec` loop
enumerates exactly these positions in ascending order. -/
def divPositions (l : List Char) : List Nat :=
  (List.range l.length).filter
    (fun j => l.get? j == some '/' && !(l.get? (j + 1) == some '='))

/-- `_extractExpression`'s backward scan: nearest `=`, `,` or `(` strictly
before the division (exclusive), else position 0. -/
def extractStartAux (l : List Char) : Nat → Nat
  | 0 => 0
  | i + 1 =>
    if l.get? i == some '=' || l.get? i == some ',' || l.get? i == some '(' then
      i + 1
    else extractStartAux l i

/-- `_extractExpression`'s forward scan: nearest `,` or `)` strictly after
the division (exclusive), else end of line. -/
def extractEnd (l : List Char) (divPosition : Nat) : Nat :=
  match (List.range l.length).find?
      (fun i => decide (divPosition < i) && (l.get? i == some ',' || l.get? i == some ')')) with
  | some i => i
  | none => l.length

/-- `_extractExpression`: substring between the two scans, trimmed. -/
def extractExpression (l : List Char) (divPosition : Nat) : List Char :=
  let start := extractStartAux l divPosition
  let stop := extractEnd l divPosition
  jsTrim ((l.drop start).take (stop - start))

/-- One position of `funcName\s*\(\s*expr` (with `expr` escaped to a
literal by `Regex.escape` in the source). -/
def isWrappedAt (funcName expr s : List Char) : Bool :=
  if funcName.isPrefixOf s then
    match (s.drop funcName.length).dropWhile isWsChar with
    | '(' :: s2 => expr.isPrefixOf (s2.dropWhile isWsChar)
    | _ => false
  else false

/-- `_isAlreadyWrapped(line, expression, ruleConfig)` as used by `check`:
tests `new RegExp(funcName + '\\s*\\(\\s*' + escapedExpression)` against
the line for each configured wrapper name.  Only this traditional-call
form is tested. -/
def isAlreadyWrapped (line expr : List Char) (rc : RuleConfig) : Bool :=
  let skipFunctions := rc.skipIfWrappedIn.getD []
  if skipFunctions = [] then false
  else
    skipFunctions.any (fun fn =>
      (List.range (line.length + 1)).any
        (fun j => isWrappedAt fn expr (line.drop j)))

def defaultMsg : List Char :=
  ("Division operation detected. Consider using ifNaN({expression}, 0) " ++
   "to prevent division by zero errors.").data

/-- The `while`-loop body of `check`: walks the division positions with
the already-processed-expression set and the instance counter. -/
def checkLoop (rc : RuleConfig) (line lws : List Char) (lineNumber : Nat) :
    List Nat → List (List Char) → Nat → List Suggestion × Nat
  | [], _, counter => ([], counter)
  | p :: rest, seen, counter =>
    if isInsideString line p then
      checkLoop rc line lws lineNumber rest seen counter
    else
      let expression := extractExpression lws p
      if expression = [] then
        checkLoop rc line lws lineNumber rest seen counter
      else if expression ∈ seen then
        checkLoop rc line lws lineNumber rest seen counter
      else
        -- `processedExpressions[expression] = true` happens before the
        -- already-wrapped test, so a wrapped expression still blocks
        -- later identical ones on the line.
        let seen' := expression :: seen
        if isAlreadyWrapped lws expression rc then
          checkLoop rc line lws lineNumber rest seen' counter
        else
          let counter' := counter + 1
          let s : Suggestion :=
            { line := lineNumber
              column := p
              message := replacePlaceholders (orDefault rc.suggestion defaultMsg)
                [("expression".data, expression)]
              severity := orDefault rc.severity "warning".data
              rule := name
              label := orDefault rc.label name
              fixable := true
              hasDifferentForms := hasDifferentFormsVal rc
              original := some expression
              instanceNumber := counter' }
          let out := checkLoop rc line lws lineNumber rest seen' counter'
          (s :: out.1, out.2)

/-- `divisionOperations.check`. -/
def check (line : List Char) (lineNumber : Nat) (_allLines : List (List Char))
    (context : Context) (config : Config) (counter : Nat) :
    Except JsErr (List Suggestion) × Nat :=
  let counter := if lineNumber = 1 then 0 else counter
  if context.isInComment then (.ok [], counter)
  else
    match config.suggestionRules with
    | none => (.error .typeError, counter)
    | some sr =>
      match sr.divisionOperations with
      | none => (.ok [], counter)
      | some rc =>
        if !(otrue rc.enabled) then (.ok [], counter)
        else if containsSub line "/*".data && containsSub line "*/".data then
          (.ok [], counter)
        else
          let lws := removeStringLiterals line
          let out := checkLoop rc line lws lineNumber (divPositions lws) [] counter
          (.ok out.1, out.2)

/-- `divisionOperations.fix`.  The per-occurrence recheck calls
`_isAlreadyWrapped(line, match, ruleConfig)` with the regex *match array*
in the `expression` parameter; with a nonempty `skipIfWrappedIn` list that
reaches `DSLRuleUtils.Regex.escape(expression)`, i.e.
`Array.prototype.replace`, which does not exist — a `TypeError`.  With an
empty list `_isAlreadyWrapped` returns `false` before touching its
argument, so every occurrence is replaced. -/
def fix (code : List Char) (suggestion : Suggestion) (config : Config) :
    Except JsErr (List Char) :=
  match config.suggestionRules with
  | none => .error .typeError
  | some sr =>
    match sr.divisionOperations with
    | none => .ok code
    | some rc =>
      if !(otrue rc.autoFixEnabled) then .ok code
      else
        match suggestion.original with
        | none => .ok code
        | some original =>
          if original = [] then .ok code
          else
            let fixStyle := orDefault rc.fixStyle "traditional".data
            let template :=
              selectTemplate rc fixStyle "ifNaN({expression}, {defaultAltValue})".data
            let instanceNum :=
              if suggestion.instanceNumber = 0 then 1 else suggestion.instanceNumber
            let defaultValue := "DEF_VAL_DIV_BY_ZERO_".data ++ natToChars instanceNum
            let fixedCode :=
              replaceFirst "{defaultAltValue}".data defaultValue
                (replaceFirst "{expression}".data original template)
            let skipFunctions := rc.skipIfWrappedIn.getD []
            let step : List Char → Except JsErr (List Char) := fun line =>
              if containsSub line original then
                if skipFunctions = [] then .ok (replaceAll original fixedCode line)
                else .error .typeError
              else .ok line
            match (splitOnNl code).mapM step with
            | .error e => .error e
            | .ok newLines => .ok (joinNl newLines)

end divisionOperations

/-! ## Rule 2: `queryFunctions` -/

namespace queryFunctions

def name : List Char := "queryFunctions".data

/-- One position of `'\b(' + functionNames.join('|') + ')\s*\('`:
word boundary, then the first of the configured names (alternation is
ordered) whose continuation `\s*\(` also matches. -/
def matchAt (names : List (List Char)) (l : List Char) (j : Nat) :
    Option (Nat × List Char) :=
  if !wordBoundaryAt l j then none
  else
    names.findSome? (fun fn =>
      let s := l.drop j
      if fn.isPrefixOf s then
        let rest := s.drop fn.length
        let ws := (rest.takeWhile isWsChar).length
        match rest.drop ws with
        | '(' :: _ => some (fn.length + ws + 1, fn)
        | _ => none
      else none)

def defaultMsg : List Char :=
  "Consider setting {function}() as \"One-Time\" for better performance.".data

/-- The `while`-loop body of `check`. -/
def checkLoop (rc : RuleConfig) (line : List Char) (lineNumber : Nat) :
    List (Nat × List Char) → Nat → List Suggestion × Nat
  | [], counter => ([], counter)
  | (p, functionName) :: rest, counter =>
    if isInsideString line p then checkLoop rc line lineNumber rest counter
    else
      let counter' := counter + 1
      let s : Suggestion :=
        { line := lineNumber
          column := p
          message := replacePlaceholders (orDefault rc.suggestion defaultMsg)
            [("function".data, functionName)]
          severity := orDefault rc.severity "info".data
          rule := name
          label := orDefault rc.label name
          fixable := false
          original := some (functionName ++ ['('])
          instanceNumber := counter' }
      let out := checkLoop rc line lineNumber rest counter'
      (s :: out.1, out.2)

/-- `queryFunctions.check`. -/
def check (line : List Char) (lineNumber : Nat) (_allLines : List (List Char))
    (context : Context) (config : Config) (counter : Nat) :
    Except JsErr (List Suggestion) × Nat :=
  let counter := if lineNumber = 1 then 0 else counter
  if context.isInComment then (.ok [], counter)
  else
    match config.suggestionRules with
    | none => (.error .typeError, counter)
    | some sr =>
      match sr.queryFunctions with
      | none => (.ok [], counter)
      | some rc =>
        if !(otrue rc.enabled) then (.ok [], counter)
        else
          let functionNames := rc.functionNames.getD []
          if functionNames = [] then (.ok [], counter)
          else
            let lws := removeStringLiterals line
            let out := checkLoop rc line lineNumber
              (execAll (matchAt functionNames lws) lws.length) counter
            (.ok out.1, out.2)

/-- `queryFunctions.fix`: `return code;`. -/
def fix (code : List Char) (_suggestion : Suggestion) (_config : Config) :
    Except JsErr (List Char) :=
  .ok code

end queryFunctions

/-! ## Rule 3: `uniqueKey` -/

namespace uniqueKey

def name : List Char := "uniqueKey".data

/-- Case-insensitive literal prefix (the `/i` flag). -/
def ciPrefixOf (pat s : List Char) : Bool :=
  (pat.map Char.toLower).isPrefixOf (s.map Char.toLower)

/-- One position of `/uniqueKey\s*\(/gi`; this rule scans the *raw* line. -/
def matchAt (l : List Char) (j : Nat) : Option (Nat × Unit) :=
  let s := l.drop j
  if ciPrefixOf "uniqueKey".data s then
    let rest := s.drop 9
    let ws := (rest.takeWhile isWsChar).length
    match rest.drop ws with
    | '(' :: _ => some (9 + ws + 1, ())
    | _ => none
  else none

def defaultMsg : List Char :=
  ("Ensure Attribute with uniqueKey Expression is set as " ++
   "\"One-Time / No-Copy\" as per best practices.").data

/-- The `while`-loop body of `check` (the message template has no
placeholders substituted). -/
def checkLoop (rc : RuleConfig) (line : List Char) (lineNumber : Nat) :
    List (Nat × Unit) → Nat → List Suggestion × Nat
  | [], counter => ([], counter)
  | (p, _) :: rest, counter =>
    if isInsideString line p then checkLoop rc line lineNumber rest counter
    else
      let counter' := counter + 1
      let s : Suggestion :=
        { line := lineNumber
          column := p
          message := orDefault rc.suggestion defaultMsg
          severity := orDefault rc.severity "warning".data
          rule := name
          label := orDefault rc.label name
          fixable := false
          original := some "uniqueKey".data
          instanceNumber := counter' }
      let out := checkLoop rc line lineNumber rest counter'
      (s :: out.1, out.2)

/-- `uniqueKey.check`. -/
def check (line : List Char) (lineNumber : Nat) (_allLines : List (List Char))
    (context : Context) (config : Config) (counter : Nat) :
    Except JsErr (List Suggestion) × Nat :=
  let counter := if lineNumber = 1 then 0 else counter
  if context.isInComment then (.ok [], counter)
  else
    match config.suggestionRules with
    | none => (.error .typeError, counter)
    | some sr =>
      match sr.uniqueKey with
      | none => (.ok [], counter)
      | some rc =>
        if !(otrue rc.enabled) then (.ok [], counter)
        else
          let out := checkLoop rc line lineNumber
            (execAll (matchAt line) line.length) counter
          (.ok out.1, out.2)

/-- `uniqueKey.fix`: `return code;`. -/
def fix (code : List Char) (_suggestion : Suggestion) (_config : Config) :
    Except JsErr (List Char) :=
  .ok code

end uniqueKey

/-! ## Rule 4: `variableNaming` -/

namespace variableNaming

def name : List Char := "variableNaming".data

/-- The tail `([a-zA-Z_$][a-zA-Z0-9_$]*)\s*=` of the variable pattern:
returns consumed length and the captured name. -/
def varTail (s : List Char) : Option (Nat × List Char) :=
  match identAt s with
  | none => none
  | some idLen =>
    let varName := s.take idLen
    let rest := s.drop idLen
    let ws := (rest.takeWhile isWsChar).length
    match rest.drop ws with
    | '=' :: _ => some (idLen + ws + 1, varName)
    | _ => none

/-- The optional `(?:(?:var|let|const)\s+)?` group: consumed length when a
keyword followed by at least one whitespace matches (the three keywords
are mutually non-prefix, so ordered alternation tries at most one). -/
def kwMatch (s : List Char) : Option Nat :=
  ["var".data, "let".data, "const".data].findSome? (fun kw =>
    if kw.isPrefixOf s then
      let ws := ((s.drop kw.length).takeWhile isWsChar).length
      if ws = 0 then none else some (kw.length + ws)
    else none)

/-- One position of
`/\b(?:(?:var|let|const)\s+)?([a-zA-Z_$][a-zA-Z0-9_$]*)\s*=/g`: the
keyword path is tried first; if it (or its continuation) fails, the
group matches empty. -/
def matchAt (l : List Char) (j : Nat) : Option (Nat × List Char) :=
  if !wordBoundaryAt l j then none
  else
    let s := l.drop j
    match kwMatch s with
    | some kwLen =>
      match varTail (s.drop kwLen) with
      | some (tLen, varName) => some (kwLen + tLen, varName)
      | none => varTail s
    | none => varTail s

/-- `varName.indexOf('_') !== -1 || /^[A-Z]/.test(varName)`. -/
def badName (varName : List Char) : Bool :=
  varName.contains '_' ||
    (match varName with
     | c :: _ => 'A' ≤ c && c ≤ 'Z'
     | [] => false)

/-- The camel-case rewrite: split on `_`; lowercase the first character of
the first part, uppercase the first character and lowercase the rest of
every later part; join. -/
def camelCase (varName : List Char) : List Char :=
  ((splitOnChar '_' varName).enum.map (fun p =>
    match p.2 with
    | [] => []
    | c :: rest =>
      if p.1 = 0 then Char.toLower c :: rest
      else Char.toUpper c :: rest.map Char.toLower)).flatten

def defaultMsg : List Char :=
  "Variable \"{varName}\" should use camelCase naming convention".data

/-- The `while`-loop body of `check`.  Note: the computed camel-case name
is substituted into the message but is *not* stored in a `fixed` field on
the suggestion. -/
def checkLoop (rc : RuleConfig) (line : List Char) (lineNumber : Nat) :
    List (Nat × List Char) → Nat → List Suggestion × Nat
  | [], counter => ([], counter)
  | (p, varName) :: rest, counter =>
    if isInsideString line p then checkLoop rc line lineNumber rest counter
    else if !badName varName then checkLoop rc line lineNumber rest counter
    else
      let camelCaseName := camelCase varName
      let counter' := counter + 1
      let s : Suggestion :=
        { line := lineNumber
          column := p
          message := replacePlaceholders (orDefault rc.suggestion defaultMsg)
            [("varName".data, varName), ("correctedName".data, camelCaseName)]
          severity := orDefault rc.severity "info".data
          rule := name
          label := orDefault rc.label name
          fixable := true
          hasDifferentForms := hasDifferentFormsVal rc
          original := some varName
          instanceNumber := counter' }
      let out := checkLoop rc line lineNumber rest counter'
      (s :: out.1, out.2)

/-- `variableNaming.check`. -/
def check (line : List Char) (lineNumber : Nat) (_allLines : List (List Char))
    (context : Context) (config : Config) (counter : Nat) :
    Except JsErr (List Suggestion) × Nat :=
  let counter := if lineNumber = 1 then 0 else counter
  if context.isInComment then (.ok [], counter)
  else
    match config.suggestionRules with
    | none => (.error .typeError, counter)
    | some sr =>
      match sr.variableNaming with
      | none => (.ok [], counter)
      | some rc =>
        if !(otrue rc.enabled) then (.ok [], counter)
        else
          let lws := removeStringLiterals line
          let out := checkLoop rc line lineNumber
            (execAll (matchAt lws) lws.length) counter
          (.ok out.1, out.2)

/-- `variableNaming.fix`: whole-word replacement of `suggestion.original`
by `suggestion.fixed` — a no-op whenever `fixed` is absent or empty. -/
def fix (code : List Char) (suggestion : Suggestion) (config : Config) :
    Except JsErr (List Char) :=
  match config.suggestionRules with
  | none => .error .typeError
  | some sr =>
    match sr.variableNaming with
    | none => .ok code
    | some rc =>
      if !(otrue rc.autoFixEnabled) then .ok code
      else if strFalsy suggestion.original || strFalsy suggestion.fixed then .ok code
      else
        match suggestion.original, suggestion.fixed with
        | some original, some fixed => .ok (replaceWordBounded original fixed code)
        | _, _ => .ok code

end variableNaming

/-! ## Rule 5: `nonOptimalNodeAccess` -/

namespace nonOptimalNodeAccess

def name : List Char := "nonOptimalNodeAccess".data

/-- `(?!\s*:)` — the negative lookahead that excludes declarations. -/
def lookaheadColon (s : List Char) : Bool :=
  match s.dropWhile isWsChar with
  | ':' :: _ => true
  | _ => false

/-- One position of `new RegExp(library + '\\.(\\w+)(?!\\s*:)', 'g')`:
the literal library name, a dot, then a greedy `\w+` that backs off one
character at a time until the negative lookahead is satisfied.  Captures
(node name, full match). -/
def matchAt (library : List Char) (l : List Char) (j : Nat) :
    Option (Nat × (List Char × List Char)) :=
  let s := l.drop j
  if library.isPrefixOf s then
    match s.drop library.length with
    | '.' :: r =>
      let m := (r.takeWhile isWordChar).length
      match ((List.range m).map (fun i => m - i)).find?
          (fun k => decide (1 ≤ k) && !lookaheadColon (r.drop k)) with
      | some k =>
        some (library.length + 1 + k,
          (r.take k, library ++ '.' :: r.take k))
      | none => none
    | _ => none
  else none

/-- `_findNodeAccess`: all matches for each configured library, in library
order (the match lists are concatenated, not position-sorted). -/
def findNodeAccess (l : List Char) (config : Config) :
    List (List Char × Nat × List Char × List Char) :=
  let libraries := config.libraries.getD
    ["Primary".data, "Secondary".data, "Tertiary".data]
  (libraries.map (fun library =>
    (execAll (matchAt library l) l.length).map
      (fun pr => (library, pr.1, pr.2.1, pr.2.2)))).flatten

def defaultMsg : List Char :=
  ("{library} node reference detected. Consider storing in variable " ++
   "if used multiple times.").data

/-- The loop over found nodes (this rule has no in-string recheck). -/
def checkLoop (rc : RuleConfig) (lineNumber : Nat) :
    List (List Char × Nat × List Char × List Char) → Nat →
    List Suggestion × Nat
  | [], counter => ([], counter)
  | (library, p, nodeName, fullMatch) :: rest, counter =>
    let counter' := counter + 1
    let s : Suggestion :=
      { line := lineNumber
        column := p
        message := replacePlaceholders (orDefault rc.suggestion defaultMsg)
          [("library".data, library), ("node".data, nodeName)]
        severity := orDefault rc.severity "info".data
        rule := name
        label := orDefault rc.label name
        fixable := false
        original := some fullMatch
        instanceNumber := counter' }
    let out := checkLoop rc lineNumber rest counter'
    (s :: out.1, out.2)

/-- `nonOptimalNodeAccess.check`. -/
def check (line : List Char) (lineNumber : Nat) (_allLines : List (List Char))
    (context : Context) (config : Config) (counter : Nat) :
    Except JsErr (List Suggestion) × Nat :=
  let counter := if lineNumber = 1 then 0 else counter
  if context.isInComment then (.ok [], counter)
  else
    match config.suggestionRules with
    | none => (.error .typeError, counter)
    | some sr =>
      match sr.nonOptimalNodeAccess with
      | none => (.ok [], counter)
      | some rc =>
        if !(otrue rc.enabled) then (.ok [], counter)
        else
          let lws := removeStringLiterals line
          let out := checkLoop rc lineNumber (findNodeAccess lws config) counter
          (.ok out.1, out.2)

/-- `nonOptimalNodeAccess.fix`: `return code;`. -/
def fix (code : List Char) (_suggestion : Suggestion) (_config : Config) :
    Except JsErr (List Char) :=
  .ok code

end nonOptimalNodeAccess

/-! ## Rule 6: `nullAccessProtection` -/

namespace nullAccessProtection

def name : List Char := "nullAccessProtection".data

/-- One position of
`/([a-zA-Z_$][a-zA-Z0-9_$]*)\.([a-zA-Z_$][a-zA-Z0-9_$]*)/g`: captures
(object, property); the match length is
`object.length + 1 + property.length`. -/
def matchAt (l : List Char) (j : Nat) :
    Option (Nat × (List Char × List Char)) :=
  let s := l.drop j
  match identAt s with
  | none => none
  | some n1 =>
    match s.drop n1 with
    | '.' :: r =>
      match identAt r with
      | none => none
      | some n2 => some (n1 + 1 + n2, (s.take n1, r.take n2))
    | _ => none

/-- The shared tail `\s*[!=]=` of the null-check patterns. -/
def eqTail (s : List Char) : Bool :=
  match s.dropWhile isWsChar with
  | c :: '=' :: _ => c == '!' || c == '='
  | _ => false

/-- The tail `\s*[!=]=\s*word` (`word` is `null` or `undefined`). -/
def eqValTail (word s : List Char) : Bool :=
  match s.dropWhile isWsChar with
  | c :: '=' :: r =>
    (c == '!' || c == '=') && word.isPrefixOf (r.dropWhile isWsChar)
  | _ => false

/-- `'if\s*\(\s*' + varName + '\s*[!=]='` at one position. -/
def p1At (v s : List Char) : Bool :=
  if "if".data.isPrefixOf s then
    match (s.drop 2).dropWhile isWsChar with
    | '(' :: r2 =>
      let r3 := r2.dropWhile isWsChar
      v.isPrefixOf r3 && eqTail (r3.drop v.length)
    | _ => false
  else false

/-- `varName + '\s*[!=]=\s*null'` / `'...undefined'` at one position. -/
def p2At (v word s : List Char) : Bool :=
  v.isPrefixOf s && eqValTail word (s.drop v.length)

/-- `'typeof\s+' + varName + '\s*[!=]='` at one position. -/
def p4At (v s : List Char) : Bool :=
  if "typeof".data.isPrefixOf s then
    let rest := s.drop 6
    let ws := (rest.takeWhile isWsChar).length
    (ws != 0) && v.isPrefixOf (rest.drop ws) &&
      eqTail ((rest.drop ws).drop v.length)
  else false

/-- An unanchored `RegExp.test`: the pattern matches at some position. -/
def anyPos (line : List Char) (f : List Char → Bool) : Bool :=
  (List.range (line.length + 1)).any (fun j => f (line.drop j))

/-- `_hasNullCheck(line, varName)`: any of the four guard patterns
matches somewhere in the (masked) line. -/
def hasNullCheck (line v : List Char) : Bool :=
  anyPos line (p1At v) ||
  anyPos line (p2At v "null".data) ||
  anyPos line (p2At v "undefined".data) ||
  anyPos line (p4At v)

def defaultMsg : List Char :=
  ("Property access on \"{object}\" may fail if null/undefined. " ++
   "Consider using optional chaining ({object}?.{property}) or null check.").data

/-- The `while`-loop body of `check`. -/
def checkLoop (rc : RuleConfig) (line lws : List Char) (lineNumber : Nat) :
    List (Nat × (List Char × List Char)) → Nat → List Suggestion × Nat
  | [], counter => ([], counter)
  | (p, object, property) :: rest, counter =>
    if isInsideString line p then checkLoop rc line lws lineNumber rest counter
    else
      -- skip function calls: character right after the match is '('
      let matchEnd := p + (object.length + 1 + property.length)
      if lws.get? matchEnd == some '(' then
        checkLoop rc line lws lineNumber rest counter
      else
        let hasOptionalChaining := containsSub lws (object ++ "?.".data)
        let hasNCheck := hasNullCheck lws object
        if hasOptionalChaining || hasNCheck then
          checkLoop rc line lws lineNumber rest counter
        else
          let expression := object ++ '.' :: property
          let counter' := counter + 1
          let s : Suggestion :=
            { line := lineNumber
              column := p
              message := replacePlaceholders (orDefault rc.suggestion defaultMsg)
                [("object".data, object), ("property".data, property),
                 ("expression".data, expression)]
              severity := orDefault rc.severity "warning".data
              rule := name
              label := orDefault rc.label name
              fixable := true
              hasDifferentForms := hasDifferentFormsVal rc
              original := some expression
              instanceNumber := counter' }
          let out := checkLoop rc line lws lineNumber rest counter'
          (s :: out.1, out.2)

/-- `nullAccessProtection.check`. -/
def check (line : List Char) (lineNumber : Nat) (_allLines : List (List Char))
    (context : Context) (config : Config) (counter : Nat) :
    Except JsErr (List Suggestion) × Nat :=
  let counter := if lineNumber = 1 then 0 else counter
  if context.isInComment then (.ok [], counter)
  else
    match config.suggestionRules with
    | none => (.error .typeError, counter)
    | some sr =>
      match sr.nullAccessProtection with
      | none => (.ok [], counter)
      | some rc =>
        if !(otrue rc.enabled) then (.ok [], counter)
        else
          let lws := removeStringLiterals line
          let out := checkLoop rc line lws lineNumber
            (execAll (matchAt lws) lws.length) counter
          (.ok out.1, out.2)

/-- `nullAccessProtection.fix`: wraps the matched `object.property` in the
selected template everywhere (a plain global replace of the whole code,
with no already-wrapped recheck).  The fix style consults
`window.__forceFormSelection` before the passed config. -/
def fix (w : Window) (code : List Char) (suggestion : Suggestion)
    (config : Config) : Except JsErr (List Char) :=
  match config.suggestionRules with
  | none => .error .typeError
  | some sr =>
    match sr.nullAccessProtection with
    | none => .ok code
    | some rc =>
      if !(otrue rc.autoFixEnabled) then .ok code
      else
        match suggestion.original with
        | none => .ok code
        | some original =>
          if original = [] then .ok code
          else
            let fixStyle :=
              match w.forceFormSelection with
              | some f =>
                if f = [] then orDefault rc.fixStyle "traditional".data else f
              | none => orDefault rc.fixStyle "traditional".data
            let template := selectTemplate rc fixStyle "ifNull({expression})".data
            match splitOnChar '.' original with
            | [object, property] =>
              let instanceNum :=
                if suggestion.instanceNumber = 0 then 1
                else suggestion.instanceNumber
              let defaultAltValue :=
                "DEF_VAL_NULL_SAFETY_".data ++ natToChars instanceNum
              let fixed := replacePlaceholders template
                [("object".data, object), ("property".data, property),
                 ("expression".data, original),
                 ("defaultAltValue".data, defaultAltValue)]
              .ok (replaceAll original fixed code)
            | _ => .ok code

end nullAccessProtection

/-! ## Rule 7: `mathOperationsParens` -/

namespace mathOperationsParens

def name : List Char := "mathOperationsParens".data

/-- One position of
`/(id)\s*([\+\-])\s*(id)\s*([\*\/])\s*(id)/g` with `id` the identifier
class `[a-zA-Z_$][a-zA-Z0-9_$]*`; yields the overall match length (the
full match `match[0]` is the slice of that length at the position). -/
def matchAt (l : List Char) (j : Nat) : Option (Nat × Nat) :=
  let s := l.drop j
  match identAt s with
  | none => none
  | some n1 =>
    let r1 := s.drop n1
    let w1 := (r1.takeWhile isWsChar).length
    match r1.drop w1 with
    | op1 :: r2 =>
      if op1 = '+' ∨ op1 = '-' then
        let w2 := (r2.takeWhile isWsChar).length
        let r2b := r2.drop w2
        match identAt r2b with
        | none => none
        | some n2 =>
          let r3 := r2b.drop n2
          let w3 := (r3.takeWhile isWsChar).length
          match r3.drop w3 with
          | op2 :: r4 =>
            if op2 = '*' ∨ op2 = '/' then
              let w4 := (r4.takeWhile isWsChar).length
              let r4b := r4.drop w4
              match identAt r4b with
              | none => none
              | some n3 =>
                let len := n1 + w1 + 1 + w2 + n2 + w3 + 1 + w4 + n3
                some (len, len)
            else none
          | [] => none
      else none
    | [] => none

/-- `_hasParentheses`: a `(` immediately before or a `)` immediately after
the match. -/
def hasParentheses (l : List Char) (startPos len : Nat) : Bool :=
  (match startPos with
   | 0 => false
   | i + 1 => l.get? i == some '(') || l.get? (startPos + len) == some ')'

def defaultMsg : List Char :=
  "Complex math expression detected. Consider adding parentheses for clarity.".data

/-- The `while`-loop body of `check`.  The suggestion appends the matched
expression in `**markers**` to the message; the parenthesised rewrite is
computed in the source but not stored on the suggestion (no `fixed`
field). -/
def checkLoop (rc : RuleConfig) (line lws : List Char) (lineNumber : Nat) :
    List (Nat × Nat) → Nat → List Suggestion × Nat
  | [], counter => ([], counter)
  | (p, matchLen) :: rest, counter =>
    if isInsideString line p then checkLoop rc line lws lineNumber rest counter
    else if hasParentheses lws p matchLen then
      checkLoop rc line lws lineNumber rest counter
    else
      let original := (lws.drop p).take matchLen
      let counter' := counter + 1
      let s : Suggestion :=
        { line := lineNumber
          column := p
          message := (orDefault rc.suggestion defaultMsg) ++ " **".data ++
            original ++ "**".data
          severity := orDefault rc.severity "info".data
          rule := name
          label := orDefault rc.label name
          fixable := otrue rc.autoFixEnabled
          original := some original
          instanceNumber := counter' }
      let out := checkLoop rc line lws lineNumber rest counter'
      (s :: out.1, out.2)

/-- `mathOperationsParens.check`. -/
def check (line : List Char) (lineNumber : Nat) (_allLines : List (List Char))
    (context : Context) (config : Config) (counter : Nat) :
    Except JsErr (List Suggestion) × Nat :=
  let counter := if lineNumber = 1 then 0 else counter
  if context.isInComment then (.ok [], counter)
  else
    match config.suggestionRules with
    | none => (.error .typeError, counter)
    | some sr =>
      match sr.mathOperationsParens with
      | none => (.ok [], counter)
      | some rc =>
        if !(otrue rc.enabled) then (.ok [], counter)
        else
          let lws := removeStringLiterals line
          let out := checkLoop rc line lws lineNumber
            (execAll (matchAt lws) lws.length) counter
          (.ok out.1, out.2)

/-- `mathOperationsParens.fix`: plain global replacement of
`suggestion.original` by `suggestion.fixed` — a no-op whenever `fixed` is
absent or empty. -/
def fix (code : List Char) (suggestion : Suggestion) (config : Config) :
    Except JsErr (List Char) :=
  match config.suggestionRules with
  | none => .error .typeError
  | some sr =>
    match sr.mathOperationsParens with
    | none => .ok code
    | some rc =>
      if !(otrue rc.autoFixEnabled) then .ok code
      else if strFalsy suggestion.original || strFalsy suggestion.fixed then .ok code
      else
        match suggestion.original, suggestion.fixed with
        | some original, some fixed => .ok (replaceAll original fixed code)
        | _, _ => .ok code

end mathOperationsParens

/-! ## Rule 8: `extraneousBlocks` -/

namespace extraneousBlocks

def name : List Char := "extraneousBlocks".data

/-- `content.replace(/\/\*[\s\S]*?\*\//g, '')`: drop each `/*`-to-first-
following-`*/` span; an unclosed `/*` (no `*/` anywhere after it) leaves
the rest untouched.  Each removed span is at least 4 characters, so the
fuel `s.length` is never exhausted. -/
def stripBlockCommentsAux : Nat → List Char → List Char
  | 0, s => s
  | fuel + 1, s =>
    match findSubIdx s "/*".data with
    | none => s
    | some i =>
      let after := s.drop (i + 2)
      match findSubIdx after "*/".data with
      | none => s
      | some k => s.take i ++ stripBlockCommentsAux fuel (after.drop (k + 2))

def stripBlockComments (s : List Char) : List Char :=
  stripBlockCommentsAux s.length s

/-- `.replace(/\/\/.*/g, '')`: drop each `//` up to (excluding) the next
line terminator (`.` does not match `\n`/`\r`). -/
def stripLineCommentsAux : Nat → List Char → List Char
  | 0, s => s
  | fuel + 1, s =>
    match findSubIdx s "//".data with
    | none => s
    | some i =>
      let rest := (s.drop (i + 2)).dropWhile (fun c => !(c == '\n' || c == '\r'))
      s.take i ++ stripLineCommentsAux fuel rest

def stripLineComments (s : List Char) : List Char :=
  stripLineCommentsAux s.length s

/-- `_countStatements`: strip comments, trim; empty content is 0
statements, otherwise one plus the number of commas at bracket depth 0
(the depth is a plain JS number, so it may go negative). -/
def countStatements (content : List Char) : Nat :=
  let trimmed := jsTrim (stripLineComments (stripBlockComments content))
  if trimmed = [] then 0
  else
    let acc := trimmed.foldl
      (fun (p : Nat × Int) c =>
        if c = '(' ∨ c = '[' ∨ c = '{' then (p.1, p.2 + 1)
        else if c = ')' ∨ c = ']' ∨ c = '}' then (p.1, p.2 - 1)
        else if c = ',' ∧ p.2 = 0 then (p.1 + 1, p.2)
        else p)
      (0, (0 : Int))
    acc.1 + 1

def defaultBlockMsg : List Char :=
  "Remove unnecessary block() wrapper for single statement.".data

/-- The suggestion `_checkBlockFunction` returns when the wrapped content
is a single statement. -/
def blockSuggestion (rc : RuleConfig) (startLine col counter' : Nat) :
    Suggestion :=
  { line := startLine
    column := col
    message := orDefault rc.suggestion defaultBlockMsg
    severity := orDefault rc.severity "info".data
    rule := name
    label := orDefault rc.label name
    fixable := true
    hasDifferentForms := hasDifferentFormsVal rc
    instanceNumber := counter' }

/-- Result of scanning one line's remaining characters inside `block(`:
either the closing parenthesis was reached (with the accumulated content,
excluding that parenthesis) or the line ended at the given depth. -/
inductive CBStep where
  | closedAt (content : List Char)
  | running (depth : Nat) (content : List Char)

/-- The per-character loop while inside `block(`: track parenthesis depth
and accumulate every character (parens included) except the final closing
one. -/
def cbLine (depth : Nat) (content : List Char) : List Char → CBStep
  | [] => .running depth content
  | ch :: rest =>
    if ch = '(' then cbLine (depth + 1) (content ++ ['(']) rest
    else if ch = ')' then
      if depth = 1 then .closedAt content
      else cbLine (depth - 1) (content ++ [')']) rest
    else cbLine depth (content ++ [ch]) rest

/-- Continue the `block(` scan over subsequent lines (each masked first),
a `'\n'` joining lines, until the closing parenthesis or the end of the
file.  On close, a single-statement content yields the suggestion and
bumps the counter. -/
def cbRun (rc : RuleConfig) (startLine col counter : Nat) :
    Nat → List Char → List Char → List (List Char) →
    Option Suggestion × Nat
  | depth, content, chars, [] =>
    match cbLine depth content chars with
    | .closedAt content' =>
      if countStatements content' = 1 then
        (some (blockSuggestion rc startLine col (counter + 1)), counter + 1)
      else (none, counter)
    | .running _ _ => (none, counter)
  | depth, content, chars, l :: ls =>
    match cbLine depth content chars with
    | .closedAt content' =>
      if countStatements content' = 1 then
        (some (blockSuggestion rc startLine col (counter + 1)), counter + 1)
      else (none, counter)
    | .running d ct =>
      cbRun rc startLine col counter d (ct ++ ['\n'])
        (removeStringLiterals l) ls

/-- The find-`block(`-then-scan phase of `_checkBlockFunction`: before the
opening is found the inner loop does nothing else, so the phase is the
first `block(` occurrence over the masked lines. -/
def cbPhase1 (rc : RuleConfig) (startLine counter : Nat) :
    List (List Char) → Option Suggestion × Nat
  | [] => (none, counter)
  | l :: ls =>
    let lws := removeStringLiterals l
    match findSubIdx lws "block(".data with
    | some j => cbRun rc startLine j counter 1 [] (lws.drop (j + 6)) ls
    | none => cbPhase1 rc startLine counter ls

/-- `_checkBlockFunction(startLine, allLines, ruleConfig)` (the counter is
the rule's `_instanceCounter`). -/
def checkBlockFunction (rc : RuleConfig) (startLine : Nat)
    (allLines : List (List Char)) (counter : Nat) :
    Option Suggestion × Nat :=
  cbPhase1 rc startLine counter (allLines.drop (startLine - 1))

def defaultBraceMsg : List Char :=
  "Unnecessary block detected. Single statement does not require braces.".data

def defaultEmptyMsg : List Char :=
  "Empty block detected. Consider removing or adding implementation.".data

/-- `extraneousBlocks.check`: the `block(...)` wrapper check, the lone-`{`
single-statement check (peeking at the next two raw lines), and the
empty-block check, in that order. -/
def check (line : List Char) (lineNumber : Nat) (allLines : List (List Char))
    (context : Context) (config : Config) (counter : Nat) :
    Except JsErr (List Suggestion) × Nat :=
  let counter := if lineNumber = 1 then 0 else counter
  if context.isInComment then (.ok [], counter)
  else
    match config.suggestionRules with
    | none => (.error .typeError, counter)
    | some sr =>
      match sr.extraneousBlocks with
      | none => (.ok [], counter)
      | some rc =>
        if !(otrue rc.enabled) then (.ok [], counter)
        else
          let lws := removeStringLiterals line
          let trimmedLine := jsTrim lws
          let part1 :=
            if containsSub trimmedLine "block(".data then
              match checkBlockFunction rc lineNumber allLines counter with
              | (some s, c') => ([s], c')
              | (none, c') => ([], c')
            else ([], counter)
          let counter := part1.2
          let part2 :=
            if trimmedLine = ['{'] ∧ lineNumber < allLines.length - 1 then
              let nextLine := jsTrim ((allLines.get? lineNumber).getD [])
              let lineAfterNext :=
                if lineNumber < allLines.length - 2 then
                  jsTrim ((allLines.get? (lineNumber + 1)).getD [])
                else []
              if nextLine ≠ [] ∧ nextLine ≠ ['}'] ∧ lineAfterNext = ['}'] then
                let counter' := counter + 1
                ([{ line := lineNumber
                    column := 0
                    message := orDefault rc.suggestion defaultBraceMsg
                    severity := orDefault rc.severity "info".data
                    rule := name
                    label := orDefault rc.label name
                    fixable := true
                    hasDifferentForms := hasDifferentFormsVal rc
                    instanceNumber := counter' : Suggestion }], counter')
              else ([], counter)
            else ([], counter)
          let counter := part2.2
          let part3 :=
            if trimmedLine = ['{', '}'] ∨
                (trimmedLine = ['{'] ∧ lineNumber < allLines.length ∧
                 jsTrim ((allLines.get? lineNumber).getD []) = ['}']) then
              let counter' := counter + 1
              ([{ line := lineNumber
                  column := 0
                  message := orDefault rc.suggestion defaultEmptyMsg
                  severity := orDefault rc.severity "warning".data
                  rule := name
                  label := orDefault rc.label name
                  fixable := true
                  hasDifferentForms := hasDifferentFormsVal rc
                  instanceNumber := counter' : Suggestion }], counter')
            else ([], counter)
          (.ok (part1.1 ++ part2.1 ++ part3.1), part3.2)

/-- `extraneousBlocks.fix`: `return code;`. -/
def fix (code : List Char) (_suggestion : Suggestion) (_config : Config) :
    Except JsErr (List Char) :=
  .ok code

end extraneousBlocks

/-! ## The engine (`dslSuggestionsEngine.js` v3.00) -/

/-- `applyConfigDefaults(ruleConfig, defaults)`: copy the defaults, then
overwrite with every key present on the rule's own config. -/
def applyConfigDefaults (ruleConfig defaults : RuleConfig) : RuleConfig :=
  { enabled := ruleConfig.enabled <|> defaults.enabled
    severity := ruleConfig.severity <|> defaults.severity
    label := ruleConfig.label <|> defaults.label
    suggestion := ruleConfig.suggestion <|> defaults.suggestion
    autoFixEnabled := ruleConfig.autoFixEnabled <|> defaults.autoFixEnabled
    fixStyle := ruleConfig.fixStyle <|> defaults.fixStyle
    fixTemplates := ruleConfig.fixTemplates <|> defaults.fixTemplates
    skipIfWrappedIn := ruleConfig.skipIfWrappedIn <|> defaults.skipIfWrappedIn
    functionNames := ruleConfig.functionNames <|> defaults.functionNames
    defaultAltValue := ruleConfig.defaultAltValue <|> defaults.defaultAltValue }

/-- `getCurrentFormSelection()`: `window.__forceFormSelection`, then
`window.__currentFormSelection` (both by truthiness), then the checked
radio button's value (returned as-is when a radio is selected), defaulting
to `'traditional'`. -/
def getCurrentFormSelection (w : Window) : List Char :=
  match w.forceFormSelection with
  | some f =>
    if f ≠ [] then f
    else
      match w.currentFormSelection with
      | some c =>
        if c ≠ [] then c
        else w.radioSelection.getD "traditional".data
      | none => w.radioSelection.getD "traditional".data
  | none =>
    match w.currentFormSelection with
    | some c =>
      if c ≠ [] then c
      else w.radioSelection.getD "traditional".data
    | none => w.radioSelection.getD "traditional".data

/-- The type of an embedded rule `check`. -/
abbrev CheckFn :=
  List Char → Nat → List (List Char) → Context → Config → Nat →
    Except JsErr (List Suggestion) × Nat

/-- One rule's pass over the lines, `i` being the 1-indexed number of the
next line, threading the rule's counter; a thrown check aborts the pass
(suggestions gathered so far are discarded with the whole analysis, the
counter keeps the partial mutation). -/
def runPass (chk : CheckFn) (allLines : List (List Char)) (ctx : Context)
    (config : Config) : Nat → List (List Char) → Nat →
    Except JsErr (List Suggestion) × Nat
  | _, [], c => (.ok [], c)
  | i, l :: rest, c =>
    match chk l i allLines ctx config c with
    | (.error e, c') => (.error e, c')
    | (.ok out, c') =>
      match runPass chk allLines ctx config (i + 1) rest c' with
      | (.error e, c'') => (.error e, c'')
      | (.ok lst, c'') => (.ok (out ++ lst), c'')

/-- Chain one rule's pass onto the accumulated suggestions (the engine's
outer `for` loop over `DSL_RULES`). -/
def passStep (chk : CheckFn) (allLines : List (List Char)) (ctx : Context)
    (config : Config) (getC : Counters → Nat) (setC : Counters → Nat → Counters)
    (acc : Except JsErr (List Suggestion) × Counters) :
    Except JsErr (List Suggestion) × Counters :=
  match acc with
  | (.error e, cs) => (.error e, cs)
  | (.ok sofar, cs) =>
    match runPass chk allLines ctx config 1 allLines (getC cs) with
    | (.error e, c') => (.error e, setC cs c')
    | (.ok out, c') => (.ok (sofar ++ out), setC cs c')

/-- `obj[key] = (obj[key] || 0) + 1` on an insertion-ordered map. -/
def bumpCount : List (List Char × Nat) → List Char → List (List Char × Nat)
  | [], k => [(k, 1)]
  | (k', n) :: rest, k =>
    if k' = k then (k', n + 1) :: rest else (k', n) :: bumpCount rest k

/-- `suggestion.message.match(/\[([^\]]+)\]/)`: the first bracketed
nonempty token of the message, else `'unknown'`. -/
def extractType (msg : List Char) : List Char :=
  match (List.range (msg.length + 1)).findSome? (fun i =>
    match msg.drop i with
    | '[' :: rest =>
      let t := rest.takeWhile (fun c => !(c == ']'))
      if t ≠ [] ∧ (rest.drop t.length).head? = some ']' then some t else none
    | _ => none) with
  | some t => t
  | none => "unknown".data

/-- The summary computed at the end of `analyzeDSL`. -/
def buildSummary (suggs : List Suggestion) : Summary :=
  { total := suggs.length
    byType := suggs.foldl (fun m s => bumpCount m (extractType s.message)) []
    bySeverity := suggs.foldl (fun m s => bumpCount m s.severity) [] }

/-- `options.config || window.dslSuggestionsConfigData || {}`. -/
def resolveConfig (w : Window) (options : Options) : Config :=
  match options.config with
  | some c => c
  | none => w.configData.getD emptyConfig

/-- Package the collected suggestions (or the propagated exception) into
the `analyzeDSL` return value. -/
def analyzeFinish (st : Except JsErr (List Suggestion) × Counters) :
    Except JsErr AnalysisResult × Counters :=
  match st with
  | (.error e, cs') => (.error e, cs')
  | (.ok suggs, cs') =>
    (.ok { suggestions := suggs, summary := buildSummary suggs }, cs')

/-- `analyzeDSL(code, options)`: resolve the config
(`options.config || window.dslSuggestionsConfigData || {}`), split the
code into lines, build the context and drive the eight rules in
registration order over every line.  The engine computes a
defaults-merged per-rule config here but passes the raw `config` to
`rule.check`, so that merged value is unused and is not modelled. -/
def analyzeDSL (w : Window) (code : List Char) (options : Options)
    (cs : Counters) : Except JsErr AnalysisResult × Counters :=
  let config := resolveConfig w options
  let lines := splitOnNl code
  let ctx : Context := { lines := lines, totalLines := lines.length }
  let st :=
    passStep extraneousBlocks.check lines ctx config (·.blocks)
      (fun cs n => { cs with blocks := n })
      (passStep mathOperationsParens.check lines ctx config (·.math)
        (fun cs n => { cs with math := n })
        (passStep (nullAccessProtection.check) lines ctx config (·.nullAccess)
          (fun cs n => { cs with nullAccess := n })
          (passStep nonOptimalNodeAccess.check lines ctx config (·.nodeAccess)
            (fun cs n => { cs with nodeAccess := n })
            (passStep variableNaming.check lines ctx config (·.naming)
              (fun cs n => { cs with naming := n })
              (passStep uniqueKey.check lines ctx config (·.unique)
                (fun cs n => { cs with unique := n })
                (passStep queryFunctions.check lines ctx config (·.query)
                  (fun cs n => { cs with query := n })
                  (passStep divisionOperations.check lines ctx config (·.division)
                    (fun cs n => { cs with division := n })
                    (.ok [], cs))))))))
  analyzeFinish st

/-- The type of an embedded rule `fix`. -/
abbrev FixFn := List Char → Suggestion → Config → Except JsErr (List Char)

/-- The inner `for` loop of `applyCodeSuggestions`: apply the rule's fix
to each of its suggestions in order on the evolving code (the source
assigns the result only when it differs, which yields the same value). -/
def foldFixes (fixFn : FixFn) (fullConfig : Config) :
    List Char → List Suggestion → Except JsErr (List Char)
  | code, [] => .ok code
  | code, s :: rest =>
    match fixFn code s fullConfig with
    | .error e => .error e
    | .ok c => foldFixes fixFn fullConfig c rest

/-- One iteration of the rule loop in `applyCodeSuggestions`: resolve and
defaults-merge the rule's config, skip when absent / disabled / auto-fix
disabled, override `fixStyle` with the form selection, build the
single-rule `fullConfig`, re-analyze the current code against the window
config, filter this rule's suggestions and fix each in order. -/
def applyRule (w : Window) (config : Config) (formSelection : List Char)
    (getEntry : SuggestionRules → Option RuleConfig)
    (mkEntry : RuleConfig → SuggestionRules) (ruleName : List Char)
    (fixFn : FixFn) (code : List Char) (cs : Counters) :
    Except JsErr (List Char) × Counters :=
  match config.suggestionRules.bind getEntry with
  | none => (.ok code, cs)
  | some rc0 =>
    let ruleConfig := match config.defaults with
      | some d => applyConfigDefaults rc0 d
      | none => rc0
    if !(otrue ruleConfig.enabled) then (.ok code, cs)
    else if !(otrue ruleConfig.autoFixEnabled) then (.ok code, cs)
    else
      let modifiedRuleConfig := { ruleConfig with fixStyle := some formSelection }
      let fullConfig : Config :=
        { suggestionRules := some (mkEntry modifiedRuleConfig) }
      match analyzeDSL w code {} cs with
      | (.error e, cs') => (.error e, cs')
      | (.ok res, cs') =>
        let ruleSuggestions := res.suggestions.filter (fun s => s.rule == ruleName)
        match foldFixes fixFn fullConfig code ruleSuggestions with
        | .error e => (.error e, cs')
        | .ok c => (.ok c, cs')

/-- Chain an `applyRule` step onto the running (code, counters) state. -/
def chainRule (w : Window) (config : Config) (formSelection : List Char)
    (getEntry : SuggestionRules → Option RuleConfig)
    (mkEntry : RuleConfig → SuggestionRules) (ruleName : List Char)
    (fixFn : FixFn) (st : Except JsErr (List Char) × Counters) :
    Except JsErr (List Char) × Counters :=
  match st with
  | (.error e, cs) => (.error e, cs)
  | (.ok code, cs) =>
    applyRule w config formSelection getEntry mkEntry ruleName fixFn code cs

/-- The `try` body of `applyCodeSuggestions`: all eight rules in
registration order. -/
def applyBody (w : Window) (code : List Char) (cs : Counters) :
    Except JsErr (List Char) × Counters :=
  let config := w.configData.getD emptyConfig
  let formSelection := getCurrentFormSelection w
  chainRule w config formSelection (·.extraneousBlocks)
    (fun rc => { extraneousBlocks := some rc }) extraneousBlocks.name
    extraneousBlocks.fix
    (chainRule w config formSelection (·.mathOperationsParens)
      (fun rc => { mathOperationsParens := some rc }) mathOperationsParens.name
      mathOperationsParens.fix
      (chainRule w config formSelection (·.nullAccessProtection)
        (fun rc => { nullAccessProtection := some rc }) nullAccessProtection.name
        (nullAccessProtection.fix w)
        (chainRule w config formSelection (·.nonOptimalNodeAccess)
          (fun rc => { nonOptimalNodeAccess := some rc }) nonOptimalNodeAccess.name
          nonOptimalNodeAccess.fix
          (chainRule w config formSelection (·.variableNaming)
            (fun rc => { variableNaming := some rc }) variableNaming.name
            variableNaming.fix
            (chainRule w config formSelection (·.uniqueKey)
              (fun rc => { uniqueKey := some rc }) uniqueKey.name uniqueKey.fix
              (chainRule w config formSelection (·.queryFunctions)
                (fun rc => { queryFunctions := some rc }) queryFunctions.name
                queryFunctions.fix
                (chainRule w config formSelection (·.divisionOperations)
                  (fun rc => { divisionOperations := some rc })
                  divisionOperations.name divisionOperations.fix
                  (.ok code, cs))))))))

/-- `applyCodeSuggestions(code)`: empty/whitespace-only input is returned
unchanged; any exception in the body makes the `catch` return the
original input code (never a partially fixed document). -/
def applyCodeSuggestions (w : Window) (code : List Char) (cs : Counters) :
    List Char × Counters :=
  if code = [] ∨ jsTrim code = [] then (code, cs)
  else
    match applyBody w code cs with
    | (.ok c, cs') => (c, cs')
    | (.error _, cs') => (code, cs')

/-! ## Derived notions used by the specification statements -/

/-- The original character immediately before position `p`, where `prev`
is the character before the scanned list (used to state the masking
characterisation). -/
def prevAt (prev : Option Char) (l : List Char) : Nat → Option Char
  | 0 => prev
  | p + 1 => l.get? p

/-- Registration index of a rule name in the `DSL_RULES` array (8 for a
name that is not a registered rule). -/
def ruleIdx (n : List Char) : Nat :=
  if n = divisionOperations.name then 0
  else if n = queryFunctions.name then 1
  else if n = uniqueKey.name then 2
  else if n = variableNaming.name then 3
  else if n = nonOptimalNodeAccess.name then 4
  else if n = nullAccessProtection.name then 5
  else if n = mathOperationsParens.name then 6
  else if n = extraneousBlocks.name then 7
  else 8

/-- The rule-major, then line-major order contract on the result list:
an earlier-registered rule's suggestion never follows a later rule's, and
within one rule the line numbers are non-decreasing. -/
def sugOrdered (a b : Suggestion) : Prop :=
  ruleIdx a.rule < ruleIdx b.rule ∨ (a.rule = b.rule ∧ a.line ≤ b.line)

/-- One rule's pass produced exactly this suggestion list for some
counter state (the shape in which `analyzeDSL`'s result decomposes). -/
def PassOut (chk : CheckFn) (lines : List (List Char)) (config : Config)
    (out : List Suggestion) : Prop :=
  ∃ c c', runPass chk lines { lines := lines, totalLines := lines.length }
    config 1 lines c = (.ok out, c')

/-- The string-scanner state transition shared by `removeStringLiterals`
and `isInsideString` (used only to state and prove their agreement). -/
def scanNext (prev : Option Char) (inS : Bool) (sc : Option Char)
    (c : Char) : Bool × Option Char :=
  if isQuoteChar c && !(prev == some '\\') then
    if !inS then (true, some c)
    else if some c == sc then (false, none)
    else (inS, sc)
  else (inS, sc)

/-! ## Concrete instances used by the claim scenarios -/

/-- Division rule enabled and auto-fixable, no wrapper list. -/
def c1RuleConfig : RuleConfig := { enabled := some true, autoFixEnabled := some true }

def c1Config : Config :=
  { suggestionRules := some { divisionOperations := some c1RuleConfig } }

def c1Window : Window := { configData := some c1Config }

/-- As `c1RuleConfig` but with `skipIfWrappedIn: ["ifNaN"]`. -/
def c1RuleConfigSkip : RuleConfig :=
  { c1RuleConfig with skipIfWrappedIn := some ["ifNaN".data] }

def c1WindowSkip : Window :=
  { configData :=
      some { suggestionRules := some { divisionOperations := some c1RuleConfigSkip } } }

def c1Code : List Char := "a = b / c".data

def c1Once : List Char := "a = ifNaN(b / c, DEF_VAL_DIV_BY_ZERO_1)".data

def c1Twice : List Char :=
  "a = ifNaN(ifNaN(b / c, DEF_VAL_DIV_BY_ZERO_1), DEF_VAL_DIV_BY_ZERO_1)".data

/-- Division rule enabled with `skipIfWrappedIn: ["protect"]`. -/
def c2RuleConfig : RuleConfig :=
  { enabled := some true, skipIfWrappedIn := some ["protect".data] }

def c2Config : Config :=
  { suggestionRules := some { divisionOperations := some c2RuleConfig } }

def c2LineWrapped : List Char := "result = protect(total / count, 0)".data

def c2LineMethod : List Char := "result = (total / count).protect(0)".data

def c2Context : Context := { lines := [c2LineWrapped], totalLines := 1 }

/-- The division suggestion `check` emits on `a = b / c` (used as the
concrete instance for the suppression statement). -/
def c2WitnessSugg : Suggestion :=
  { line := 1
    column := 6
    message := ("Division operation detected. Consider using ifNaN(b / c, 0) " ++
      "to prevent division by zero errors.").data
    severity := "warning".data
    rule := "divisionOperations".data
    label := "divisionOperations".data
    fixable := true
    hasDifferentForms := none
    original := some "b / c".data
    fixed := none
    instanceNumber := 1 }

/-- The full `analyzeDSL` result on `c1Window` / `c1Code` (one division
suggestion, `c2WitnessSugg` being exactly that suggestion). -/
def c7Result : AnalysisResult :=
  { suggestions := [c2WitnessSugg]
    summary := { total := 1
                 byType := [("unknown".data, 1)]
                 bySeverity := [("warning".data, 1)] } }

/-- Variable-naming rule enabled and auto-fixable. -/
def c3RuleConfig : RuleConfig := { enabled := some true, autoFixEnabled := some true }

def c3Window : Window :=
  { configData :=
      some { suggestionRules := some { variableNaming := some c3RuleConfig } } }

def c3Code : List Char := "var my_variable = 1;\ny = my_variable + 2;".data

def c3Claimed : List Char := "var myVariable = 1;\ny = myVariable + 2;".data

/-- A configuration whose `suggestionRules` object exists but has no
entry for any rule. -/
def c4Config : Config := { suggestionRules := some {} }

def c4Ctx : Context := { lines := ["x".data], totalLines := 1 }

/-- An arbitrary suggestion for exercising the `fix` operations. -/
def c4Sugg : Suggestion :=
  { line := 1, column := 0, message := [], severity := [], rule := [],
    label := [], fixable := false, instanceNumber := 0 }

/-- Division rule enabled (analysis only). -/
def c6Options : Options :=
  { config :=
      some { suggestionRules := some { divisionOperations := some { enabled := some true } } } }

def c6Code : List Char := "a = b / c\nd = e / f\ng = h / i".data

/-! # Theorems

## Masking: `removeStringLiterals` against `isInsideString` -/

theorem prevAt_cons (prev : Option Char) (c0 : Char) (rest : List Char)
    (q : Nat) : prevAt prev (c0 :: rest) (q + 1) = prevAt (some c0) rest q := by
  cases q with
  | zero => rfl
  | succ r => rfl

theorem removeStringLiteralsAux_length (prev : Option Char) (inS : Bool)
    (sc : Option Char) (l : List Char) :
    (removeStringLiteralsAux prev inS sc l).length = l.length := by
  induction l generalizing prev inS sc with
  | nil => rfl
  | cons c rest ih =>
    simp only [removeStringLiteralsAux]
    split_ifs <;> simp [ih]

theorem isInsideStringAux_cons (prev : Option Char) (inS : Bool)
    (sc : Option Char) (c0 : Char) (rest : List Char) (q : Nat) :
    isInsideStringAux prev inS sc (c0 :: rest) (q + 1) =
      isInsideStringAux (some c0) (scanNext prev inS sc c0).1
        (scanNext prev inS sc c0).2 rest q := by
  simp only [isInsideStringAux, scanNext]
  split_ifs <;> rfl

theorem removeStringLiteralsAux_cons (prev : Option Char) (inS : Bool)
    (sc : Option Char) (c0 : Char) (rest : List Char) :
    removeStringLiteralsAux prev inS sc (c0 :: rest) =
      (if (isQuoteChar c0 && !(prev == some '\\')) || inS then ' ' else c0) ::
        removeStringLiteralsAux (some c0) (scanNext prev inS sc c0).1
          (scanNext prev inS sc c0).2 rest := by
  simp only [removeStringLiteralsAux, scanNext]
  split_ifs <;> simp_all

/-- What the masking scan writes at each position: a space exactly when
the character is an unescaped quote (a delimiter, or a quote occurring
inside a string) or the scanner is inside a string there; otherwise the
original character. -/
theorem removeStringLiteralsAux_get? (l : List Char) (prev : Option Char)
    (inS : Bool) (sc : Option Char) (p : Nat) (c : Char)
    (hc : l.get? p = some c) :
    (removeStringLiteralsAux prev inS sc l).get? p =
      some (if (isQuoteChar c && !(prevAt prev l p == some '\\')) ||
              isInsideStringAux prev inS sc l p then ' ' else c) := by
  induction l generalizing prev inS sc p with
  | nil => simp at hc
  | cons c0 rest ih =>
    cases p with
    | zero =>
      have hcc : c = c0 := by simpa using hc.symm
      subst hcc
      rw [removeStringLiteralsAux_cons]
      have h0 : isInsideStringAux prev inS sc (c :: rest) 0 = inS := rfl
      simp [h0, prevAt]
    | succ q =>
      have hq : rest.get? q = some c := by simpa using hc
      rw [prevAt_cons, removeStringLiteralsAux_cons, isInsideStringAux_cons]
      simpa using ih (some c0) (scanNext prev inS sc c0).1
        (scanNext prev inS sc c0).2 q hq

/-- C5 (amended): `removeStringLiterals` preserves the line's length, and
every position `isInsideString` reports as inside a string is masked to a
space; but the masked-to-space positions are strictly more than the
inside-string positions: a position reads as a space in the masked line
exactly when it is inside a string, or was already a space, or holds an
unescaped quote character (the delimiters themselves are masked although
`isInsideString` reports them as outside). -/
theorem C5_masking_characterisation (l : List Char) (p : Nat) (c : Char)
    (hc : l.get? p = some c) :
    (removeStringLiterals l).length = l.length ∧
    (isInsideString l p = true → (removeStringLiterals l).get? p = some ' ') ∧
    ((removeStringLiterals l).get? p = some ' ' ↔
      (isInsideString l p = true ∨ c = ' ' ∨
        (isQuoteChar c = true ∧ prevAt none l p ≠ some '\\'))) := by
  have h := removeStringLiteralsAux_get? l none false none p c hc
  refine ⟨removeStringLiteralsAux_length _ _ _ _, ?_, ?_⟩
  · intro hin
    rw [removeStringLiterals, h]
    have hin' : isInsideStringAux none false none l p = true := hin
    simp [hin']
  · rw [removeStringLiterals, h, isInsideString]
    rcases Bool.eq_false_or_eq_true (isInsideStringAux none false none l p)
      with hin | hin <;>
      rcases Bool.eq_false_or_eq_true (isQuoteChar c) with hqc | hqc <;>
      by_cases hpv : prevAt none l p = some '\\' <;>
        simp [hin, hqc, hpv]

/-- C5 counterexample: on the line `"a"` the opening quote at position 0
is masked to a space although `isInsideString` reports position 0 as not
inside a string, so the masked positions do not coincide exactly with the
inside-string positions. -/
theorem C5_counterexample :
    (removeStringLiterals ['"', 'a', '"']).get? 0 = some ' ' ∧
    isInsideString ['"', 'a', '"'] 0 = false := by
  exact ⟨rfl, rfl⟩

/-- Witness for `C5_masking_characterisation` at the line `"a"`,
position 1. -/
theorem C5_masking_characterisation_witness :
    (removeStringLiterals ['"', 'a', '"']).length =
      (['"', 'a', '"'] : List Char).length ∧
    (isInsideString ['"', 'a', '"'] 1 = true →
      (removeStringLiterals ['"', 'a', '"']).get? 1 = some ' ') ∧
    ((removeStringLiterals ['"', 'a', '"']).get? 1 = some ' ' ↔
      (isInsideString ['"', 'a', '"'] 1 = true ∨ 'a' = ' ' ∨
        (isQuoteChar 'a' = true ∧ prevAt none ['"', 'a', '"'] 1 ≠ some '\\'))) :=
  C5_masking_characterisation ['"', 'a', '"'] 1 'a' (by decide)

/-! ## The concrete division / engine scenarios -/

/-- C1: the auto-fix pass is not idempotent and the rules' wrap detection
does not protect their own fix output.  With the division rule enabled and
auto-fixable (no `skipIfWrappedIn` configured), applying the pass to
`a = b / c` wraps once, and applying it again wraps the already-fixed
expression a second time.  With `skipIfWrappedIn` configured, the fix's
per-occurrence recheck passes the regex match array where the expression
string is expected, `Regex.escape` throws a `TypeError`, and the whole
pass returns its input unchanged. -/
theorem C1_fix_not_idempotent :
    (applyCodeSuggestions c1Window c1Code {}).1 = c1Once ∧
    (applyCodeSuggestions c1Window c1Once {}).1 = c1Twice ∧
    c1Twice ≠ c1Once ∧
    (applyBody c1WindowSkip c1Code {}).1 = .error .typeError ∧
    (applyCodeSuggestions c1WindowSkip c1Code {}).1 = c1Code := by
  refine ⟨rfl, rfl, ?_, rfl, rfl⟩
  decide

/-- Every suggestion the division rule's loop emits carries the trimmed
extracted expression as `original`, at a processed operator position, and
only when that expression is not already wrapped (traditional form). -/
theorem divCheckLoop_mem {rc : RuleConfig} {line lws : List Char} {n : Nat}
    {ps : List Nat} {seen : List (List Char)} {c : Nat} {s : Suggestion}
    (hs : s ∈ (divisionOperations.checkLoop rc line lws n ps seen c).1) :
    s.rule = divisionOperations.name ∧ s.line = n ∧ s.column ∈ ps ∧
    s.original = some (divisionOperations.extractExpression lws s.column) ∧
    divisionOperations.extractExpression lws s.column ≠ [] ∧
    divisionOperations.isAlreadyWrapped lws
      (divisionOperations.extractExpression lws s.column) rc = false := by
  induction ps generalizing seen c with
  | nil => simp [divisionOperations.checkLoop] at hs
  | cons p rest ih =>
    simp only [divisionOperations.checkLoop] at hs
    split_ifs at hs with h1 h2 h3 h4
    · obtain ⟨a, b, d, e, f, g⟩ := ih hs
      exact ⟨a, b, List.mem_cons_of_mem _ d, e, f, g⟩
    · obtain ⟨a, b, d, e, f, g⟩ := ih hs
      exact ⟨a, b, List.mem_cons_of_mem _ d, e, f, g⟩
    · obtain ⟨a, b, d, e, f, g⟩ := ih hs
      exact ⟨a, b, List.mem_cons_of_mem _ d, e, f, g⟩
    · obtain ⟨a, b, d, e, f, g⟩ := ih hs
      exact ⟨a, b, List.mem_cons_of_mem _ d, e, f, g⟩
    · rw [show ∀ (x : Suggestion) (y : List Suggestion) (z : Nat),
          ((x :: y, z) : List Suggestion × Nat).1 = x :: y from fun _ _ _ => rfl]
        at hs
      rcases List.mem_cons.mp hs with hs | hs
      · subst hs
        refine ⟨rfl, rfl, List.mem_cons_self _ _, rfl, h2, ?_⟩
        exact Bool.eq_false_iff.mpr h4
      · obtain ⟨a, b, d, e, f, g⟩ := ih hs
        exact ⟨a, b, List.mem_cons_of_mem _ d, e, f, g⟩

/-- C2 (amended): the division rule suppresses a matched expression when
it is textually wrapped in a configured protector name in the traditional
call form `fn(…expr` — every emitted suggestion's expression fails the
traditional-form wrap test, and
`result = protect(total / count, 0)` with `skipIfWrappedIn: ["protect"]`
yields zero suggestions — but the method-chain form `(…expr).fn(` is not
recognised by the consolidated rule:
`result = (total / count).protect(0)` still yields a suggestion. -/
theorem C2_traditional_wrap_suppression :
    (∀ (rc : RuleConfig) (line lws : List Char) (n : Nat) (ps : List Nat)
        (seen : List (List Char)) (c : Nat) (s : Suggestion),
      s ∈ (divisionOperations.checkLoop rc line lws n ps seen c).1 →
        ∃ o, s.original = some o ∧
          divisionOperations.isAlreadyWrapped lws o rc = false) ∧
    (divisionOperations.check c2LineWrapped 1 [c2LineWrapped] c2Context
        c2Config 0).1 = .ok [] ∧
    (∃ s, (divisionOperations.check c2LineMethod 1 [c2LineMethod] c2Context
        c2Config 0).1 = .ok [s] ∧ s.original = some "total / count".data) := by
  refine ⟨?_, rfl, ⟨_, rfl, rfl⟩⟩
  intro rc line lws n ps seen c s hs
  obtain ⟨_, _, _, e, _, g⟩ := divCheckLoop_mem hs
  exact ⟨_, e, g⟩

/-- Witness for `C2_traditional_wrap_suppression` at the loop run on
`a = b / c`. -/
theorem C2_traditional_wrap_suppression_witness :
    c2WitnessSugg ∈ (divisionOperations.checkLoop c1RuleConfig c1Code
        (removeStringLiterals c1Code) 1
        (divisionOperations.divPositions (removeStringLiterals c1Code)) [] 0).1 ∧
    ∃ o, c2WitnessSugg.original = some o ∧
      divisionOperations.isAlreadyWrapped (removeStringLiterals c1Code) o
        c1RuleConfig = false := by
  have hmem : c2WitnessSugg ∈ (divisionOperations.checkLoop c1RuleConfig c1Code
      (removeStringLiterals c1Code) 1
      (divisionOperations.divPositions (removeStringLiterals c1Code)) [] 0).1 := by
    decide
  exact ⟨hmem, C2_traditional_wrap_suppression.1 _ _ _ _ _ _ _ _ hmem⟩

/-- C2 counterexample: the method-chain form is not recognised by the
wrap detection — the division in `result = (total / count).protect(0)`,
although textually wrapped by `protect` in the method-chain form, still
yields a suggestion (the claim requires such wrapped expressions to be
suppressed). -/
theorem C2_counterexample :
    ∃ s, (divisionOperations.check c2LineMethod 1 [c2LineMethod] c2Context
        c2Config 0).1 = .ok [s] ∧
      s.original = some "total / count".data ∧
      s.column = 16 := by
  exact ⟨_, rfl, rfl, rfl⟩

/-- C3: the variable-naming finding for `var my_variable = 1;` exists
(with `original` set) but carries no `fixed` field, so the rule's `fix`
returns the document unchanged instead of renaming to `myVariable`. -/
theorem C3_naming_fix_is_noop :
    ((analyzeDSL c3Window c3Code {} {}).1.map
      (fun r => r.suggestions.map (fun s => (s.rule, s.line, s.original, s.fixed)))) =
      .ok [(variableNaming.name, 1, some "my_variable".data, none)] ∧
    (applyCodeSuggestions c3Window c3Code {}).1 = c3Code ∧
    (applyCodeSuggestions c3Window c3Code {}).1 ≠ c3Claimed := by
  refine ⟨rfl, rfl, ?_⟩
  decide

/-- C4 counterexample: with a configuration that is entirely missing (the
engine substitutes `{}`), a rule's `check` does not return an empty list —
reading `config.suggestionRules.divisionOperations` throws a `TypeError`,
which propagates out of `analyzeDSL`. -/
theorem C4_counterexample :
    (divisionOperations.check "x = 1".data 1 ["x = 1".data]
        { lines := ["x = 1".data], totalLines := 1 } {} 0).1 =
      .error .typeError ∧
    (analyzeDSL {} "x = 1".data {} {}).1 = .error .typeError := by
  exact ⟨rfl, rfl⟩

/-- C4 (amended): when the `suggestionRules` object is present but lacks
the rule's entry, every rule's `check` returns the empty suggestion list
and its `fix` returns the input code unchanged (configuration absence
behaves as disabled, without errors); it is only a configuration with no
`suggestionRules` object at all that makes `check` (and the non-trivial
`fix`es) throw a `TypeError` instead. -/
theorem C4_missing_entry_behaves_disabled (sr : SuggestionRules)
    (d : Option RuleConfig) (libs : Option (List (List Char))) (w : Window)
    (line : List Char) (n : Nat) (A : List (List Char)) (ctx : Context)
    (c : Nat) (code : List Char) (s : Suggestion) :
    (sr.divisionOperations = none →
      (divisionOperations.check line n A ctx ⟨some sr, d, libs⟩ c).1 = .ok [] ∧
      divisionOperations.fix code s ⟨some sr, d, libs⟩ = .ok code) ∧
    (sr.queryFunctions = none →
      (queryFunctions.check line n A ctx ⟨some sr, d, libs⟩ c).1 = .ok [] ∧
      queryFunctions.fix code s ⟨some sr, d, libs⟩ = .ok code) ∧
    (sr.uniqueKey = none →
      (uniqueKey.check line n A ctx ⟨some sr, d, libs⟩ c).1 = .ok [] ∧
      uniqueKey.fix code s ⟨some sr, d, libs⟩ = .ok code) ∧
    (sr.variableNaming = none →
      (variableNaming.check line n A ctx ⟨some sr, d, libs⟩ c).1 = .ok [] ∧
      variableNaming.fix code s ⟨some sr, d, libs⟩ = .ok code) ∧
    (sr.nonOptimalNodeAccess = none →
      (nonOptimalNodeAccess.check line n A ctx ⟨some sr, d, libs⟩ c).1 = .ok [] ∧
      nonOptimalNodeAccess.fix code s ⟨some sr, d, libs⟩ = .ok code) ∧
    (sr.nullAccessProtection = none →
      (nullAccessProtection.check line n A ctx ⟨some sr, d, libs⟩ c).1 = .ok [] ∧
      nullAccessProtection.fix w code s ⟨some sr, d, libs⟩ = .ok code) ∧
    (sr.mathOperationsParens = none →
      (mathOperationsParens.check line n A ctx ⟨some sr, d, libs⟩ c).1 = .ok [] ∧
      mathOperationsParens.fix code s ⟨some sr, d, libs⟩ = .ok code) ∧
    (sr.extraneousBlocks = none →
      (extraneousBlocks.check line n A ctx ⟨some sr, d, libs⟩ c).1 = .ok [] ∧
      extraneousBlocks.fix code s ⟨some sr, d, libs⟩ = .ok code) := by
  refine ⟨fun h => ⟨?_, ?_⟩, fun h => ⟨?_, ?_⟩, fun h => ⟨?_, ?_⟩,
    fun h => ⟨?_, ?_⟩, fun h => ⟨?_, ?_⟩, fun h => ⟨?_, ?_⟩,
    fun h => ⟨?_, ?_⟩, fun h => ⟨?_, ?_⟩⟩ <;>
    first
      | (simp [divisionOperations.check, divisionOperations.fix, h])
      | (simp [queryFunctions.check, queryFunctions.fix, h])
      | (simp [uniqueKey.check, uniqueKey.fix, h])
      | (simp [variableNaming.check, variableNaming.fix, h])
      | (simp [nonOptimalNodeAccess.check, nonOptimalNodeAccess.fix, h])
      | (simp [nullAccessProtection.check, nullAccessProtection.fix, h])
      | (simp [mathOperationsParens.check, mathOperationsParens.fix, h])
      | (simp [extraneousBlocks.check, extraneousBlocks.fix, h])

/-- Witness for `C4_missing_entry_behaves_disabled`: the all-empty
`suggestionRules` object. -/
theorem C4_missing_entry_behaves_disabled_witness :
    ((divisionOperations.check "x".data 1 ["x".data] c4Ctx c4Config 0).1 = .ok [] ∧
      divisionOperations.fix "y".data c4Sugg c4Config = .ok "y".data) ∧
    ((queryFunctions.check "x".data 1 ["x".data] c4Ctx c4Config 0).1 = .ok [] ∧
      queryFunctions.fix "y".data c4Sugg c4Config = .ok "y".data) ∧
    ((uniqueKey.check "x".data 1 ["x".data] c4Ctx c4Config 0).1 = .ok [] ∧
      uniqueKey.fix "y".data c4Sugg c4Config = .ok "y".data) ∧
    ((variableNaming.check "x".data 1 ["x".data] c4Ctx c4Config 0).1 = .ok [] ∧
      variableNaming.fix "y".data c4Sugg c4Config = .ok "y".data) ∧
    ((nonOptimalNodeAccess.check "x".data 1 ["x".data] c4Ctx c4Config 0).1 = .ok [] ∧
      nonOptimalNodeAccess.fix "y".data c4Sugg c4Config = .ok "y".data) ∧
    ((nullAccessProtection.check "x".data 1 ["x".data] c4Ctx c4Config 0).1 = .ok [] ∧
      nullAccessProtection.fix {} "y".data c4Sugg c4Config = .ok "y".data) ∧
    ((mathOperationsParens.check "x".data 1 ["x".data] c4Ctx c4Config 0).1 = .ok [] ∧
      mathOperationsParens.fix "y".data c4Sugg c4Config = .ok "y".data) ∧
    ((extraneousBlocks.check "x".data 1 ["x".data] c4Ctx c4Config 0).1 = .ok [] ∧
      extraneousBlocks.fix "y".data c4Sugg c4Config = .ok "y".data) := by
  have h := C4_missing_entry_behaves_disabled {} none none {} "x".data 1
    ["x".data] c4Ctx 0 "y".data c4Sugg
  exact ⟨h.1 rfl, h.2.1 rfl, h.2.2.1 rfl, h.2.2.2.1 rfl, h.2.2.2.2.1 rfl,
    h.2.2.2.2.2.1 rfl, h.2.2.2.2.2.2.1 rfl, h.2.2.2.2.2.2.2 rfl⟩

/-- C6: analyzing three independent, unwrapped division lines yields the
three division suggestions with `instanceNumber` 1, 2, 3 in line order —
for every initial value of the mutable per-rule counters, because each
counter is reset when the rule checks line 1 of the run. -/
theorem C6_instance_numbering (cs : Counters) :
    ∃ r, (analyzeDSL {} c6Code c6Options cs).1 = .ok r ∧
      r.suggestions.map (fun s => (s.rule, s.line, s.instanceNumber)) =
        [(divisionOperations.name, 1, 1), (divisionOperations.name, 2, 2),
         (divisionOperations.name, 3, 3)] ∧
      r.summary.total = 3 := by
  exact ⟨_, rfl, rfl, rfl⟩

/-! ## Determinism of `analyzeDSL` (C9) -/

theorem splitOnNl_ne_nil (code : List Char) : splitOnNl code ≠ [] := by
  cases code with
  | nil => simp [splitOnNl]
  | cons c rest =>
    simp only [splitOnNl]
    split_ifs
    · simp
    · cases h : splitOnNl rest <;> simp

/-- Checking line 1 resets a rule's counter before anything else, so the
result does not depend on the incoming counter (one such lemma per
rule). -/
theorem divisionCheck_line1 (line : List Char) (A : List (List Char))
    (ctx : Context) (cfg : Config) (c c' : Nat) :
    divisionOperations.check line 1 A ctx cfg c =
      divisionOperations.check line 1 A ctx cfg c' := rfl

theorem queryCheck_line1 (line : List Char) (A : List (List Char))
    (ctx : Context) (cfg : Config) (c c' : Nat) :
    queryFunctions.check line 1 A ctx cfg c =
      queryFunctions.check line 1 A ctx cfg c' := rfl

theorem uniqueKeyCheck_line1 (line : List Char) (A : List (List Char))
    (ctx : Context) (cfg : Config) (c c' : Nat) :
    uniqueKey.check line 1 A ctx cfg c = uniqueKey.check line 1 A ctx cfg c' := rfl

theorem variableNamingCheck_line1 (line : List Char) (A : List (List Char))
    (ctx : Context) (cfg : Config) (c c' : Nat) :
    variableNaming.check line 1 A ctx cfg c =
      variableNaming.check line 1 A ctx cfg c' := rfl

theorem nodeAccessCheck_line1 (line : List Char) (A : List (List Char))
    (ctx : Context) (cfg : Config) (c c' : Nat) :
    nonOptimalNodeAccess.check line 1 A ctx cfg c =
      nonOptimalNodeAccess.check line 1 A ctx cfg c' := rfl

theorem nullAccessCheck_line1 (line : List Char) (A : List (List Char))
    (ctx : Context) (cfg : Config) (c c' : Nat) :
    nullAccessProtection.check line 1 A ctx cfg c =
      nullAccessProtection.check line 1 A ctx cfg c' := rfl

theorem mathCheck_line1 (line : List Char) (A : List (List Char))
    (ctx : Context) (cfg : Config) (c c' : Nat) :
    mathOperationsParens.check line 1 A ctx cfg c =
      mathOperationsParens.check line 1 A ctx cfg c' := rfl

theorem extraneousCheck_line1 (line : List Char) (A : List (List Char))
    (ctx : Context) (cfg : Config) (c c' : Nat) :
    extraneousBlocks.check line 1 A ctx cfg c =
      extraneousBlocks.check line 1 A ctx cfg c' := rfl

/-- A pass that starts at line 1 over a nonempty line list does not
depend on the incoming counter at all. -/
theorem runPass_const (chk : CheckFn)
    (hreset : ∀ line A ctx cfg c c',
      chk line 1 A ctx cfg c = chk line 1 A ctx cfg c')
    (A : List (List Char)) (ctx : Context) (cfg : Config) (l0 : List Char)
    (ls : List (List Char)) (c c' : Nat) :
    runPass chk A ctx cfg 1 (l0 :: ls) c = runPass chk A ctx cfg 1 (l0 :: ls) c' := by
  simp only [runPass]
  rw [hreset l0 A ctx cfg c c']

/-- `passStep` preserves equality of the suggestion component of the
accumulator, for a counter-reset rule over a nonempty line list. -/
theorem passStep_fst (chk : CheckFn)
    (hreset : ∀ line A ctx cfg c c',
      chk line 1 A ctx cfg c = chk line 1 A ctx cfg c')
    (l0 : List Char) (ls : List (List Char)) (ctx : Context) (config : Config)
    (getC : Counters → Nat) (setC : Counters → Nat → Counters)
    (a1 a2 : Except JsErr (List Suggestion) × Counters) (h : a1.1 = a2.1) :
    (passStep chk (l0 :: ls) ctx config getC setC a1).1 =
      (passStep chk (l0 :: ls) ctx config getC setC a2).1 := by
  obtain ⟨e1, cs1⟩ := a1
  obtain ⟨e2, cs2⟩ := a2
  simp only at h
  subst h
  cases e1 with
  | error e => rfl
  | ok sofar =>
    simp only [passStep]
    rw [runPass_const chk hreset (l0 :: ls) ctx config l0 ls (getC cs1) (getC cs2)]
    rcases hX : runPass chk (l0 :: ls) ctx config 1 (l0 :: ls) (getC cs2)
      with ⟨e, cX⟩
    cases e <;> rfl

/-- `analyzeFinish` only looks at the suggestion component. -/
theorem analyzeFinish_fst (st1 st2 : Except JsErr (List Suggestion) × Counters)
    (h : st1.1 = st2.1) : (analyzeFinish st1).1 = (analyzeFinish st2).1 := by
  obtain ⟨e1, k1⟩ := st1
  obtain ⟨e2, k2⟩ := st2
  simp only at h
  subst h
  cases e1 <;> rfl

/-- C9: `analyzeDSL` is deterministic in spite of the mutable per-rule
instance counters: for any two initial counter states (in particular, the
state left behind by a previous invocation) the analysis result —
suggestions, instance numbers and summary — is identical, because every
rule re-initialises its counter when it checks line 1 of the run. -/
theorem C9_analyzeDSL_deterministic (w : Window) (code : List Char)
    (options : Options) (cs cs' : Counters) :
    (analyzeDSL w code options cs).1 = (analyzeDSL w code options cs').1 := by
  obtain ⟨l0, ls, hsplit⟩ := List.exists_cons_of_ne_nil (splitOnNl_ne_nil code)
  simp only [analyzeDSL, hsplit]
  apply analyzeFinish_fst
  apply passStep_fst extraneousBlocks.check extraneousCheck_line1
  apply passStep_fst mathOperationsParens.check mathCheck_line1
  apply passStep_fst nullAccessProtection.check nullAccessCheck_line1
  apply passStep_fst nonOptimalNodeAccess.check nodeAccessCheck_line1
  apply passStep_fst variableNaming.check variableNamingCheck_line1
  apply passStep_fst uniqueKey.check uniqueKeyCheck_line1
  apply passStep_fst queryFunctions.check queryCheck_line1
  apply passStep_fst divisionOperations.check divisionCheck_line1
  rfl

/-! ## Error handling of `applyCodeSuggestions` (C10) -/

/-- C10: `applyCodeSuggestions` returns its input unchanged on empty or
whitespace-only input, and whenever its body throws, the top-level
handler returns the original input code — an exception never yields a
partially fixed document. -/
theorem C10_error_atomicity (w : Window) (code : List Char) (cs : Counters) :
    (jsTrim code = [] → (applyCodeSuggestions w code cs).1 = code) ∧
    (∀ e cs2, applyBody w code cs = (.error e, cs2) →
      (applyCodeSuggestions w code cs).1 = code) := by
  constructor
  · intro h
    simp [applyCodeSuggestions, h]
  · intro e cs2 hb
    unfold applyCodeSuggestions
    split
    · rfl
    · rw [hb]

/-- Witness for `C10_error_atomicity`: whitespace-only input, and the
division-fix `TypeError` scenario (auto-fix with a nonempty
`skipIfWrappedIn` list) whose body throws. -/
theorem C10_error_atomicity_witness :
    (jsTrim "  ".data = [] ∧
      (applyCodeSuggestions {} "  ".data {}).1 = "  ".data) ∧
    (applyBody c1WindowSkip c1Code {} = (.error .typeError, { division := 1 }) ∧
      (applyCodeSuggestions c1WindowSkip c1Code {}).1 = c1Code) := by
  refine ⟨⟨by decide, (C10_error_atomicity {} "  ".data {}).1 (by decide)⟩,
    ⟨rfl, (C10_error_atomicity c1WindowSkip c1Code {}).2 .typeError
      { division := 1 } rfl⟩⟩

/-! ## Location validity and ordering (C7, C8): generic helpers -/

theorem jsTrim_infixOf (l : List Char) : jsTrim l <:+: l := by
  unfold jsTrim
  have h1 : l.dropWhile isWsChar <:+ l := List.dropWhile_suffix _
  have h2 : ((l.dropWhile isWsChar).reverse.dropWhile isWsChar) <:+
      (l.dropWhile isWsChar).reverse := List.dropWhile_suffix _
  have h3 := List.reverse_prefix.mpr h2
  rw [List.reverse_reverse] at h3
  exact h3.isInfix.trans h1.isInfix

theorem slice_infixOf (l : List Char) (a b : Nat) : (l.drop a).take b <:+: l :=
  (List.take_prefix b (l.drop a)).isInfix.trans (List.drop_suffix a l).isInfix

theorem containsSub_iff_infixOf (x pat : List Char) :
    containsSub x pat = true ↔ pat <:+: x := by
  unfold containsSub findSubIdx
  constructor
  · intro h
    obtain ⟨j, hj⟩ := Option.isSome_iff_exists.mp h
    have hp := List.find?_some hj
    have hpre : pat <+: x.drop j := List.isPrefixOf_iff_prefix.mp hp
    exact hpre.isInfix.trans (List.drop_suffix j x).isInfix
  · intro h
    obtain ⟨t, s, hts⟩ := h
    apply List.find?_isSome.mpr
    refine ⟨t.length, ?_, ?_⟩
    · apply List.mem_range.mpr
      have : x.length = t.length + (pat.length + s.length) := by
        rw [← hts]; simp [List.length_append]
      omega
    · apply List.isPrefixOf_iff_prefix.mpr
      rw [← hts, List.drop_append_of_le_length (by simp)]
      simp

theorem findSubIdx_lt {x pat : List Char} (hpat : pat ≠ []) {j : Nat}
    (h : findSubIdx x pat = some j) : j < x.length := by
  have hp := List.find?_some h
  have hpre : pat <+: x.drop j := List.isPrefixOf_iff_prefix.mp hp
  have hlen := hpre.length_le
  have hpl : 1 ≤ pat.length := by
    cases hpc : pat with
    | nil => exact absurd hpc hpat
    | cons a t => simp
  rw [List.length_drop] at hlen
  omega

theorem containsSub_of_trim {x pat : List Char}
    (h : containsSub (jsTrim x) pat = true) : containsSub x pat = true := by
  rw [containsSub_iff_infixOf] at h ⊢
  exact h.trans (jsTrim_infixOf x)

theorem drop_eq_cons_of_get? {α : Type} {l : List α} {k : Nat} {a : α}
    (h : l.get? k = some a) : l.drop k = a :: l.drop (k + 1) := by
  induction l generalizing k with
  | nil => simp at h
  | cons x xs ih =>
    cases k with
    | zero =>
      simp only [List.get?] at h
      cases h
      simp
    | succ k' =>
      simp only [List.get?] at h
      simpa using ih h

/-! ### The global-exec driver -/

theorem firstMatchFrom_some {α : Type} {f : Nat → Option (Nat × α)}
    {len k j L : Nat} {a : α}
    (h : firstMatchFrom f len k = some (j, L, a)) : f j = some (L, a) := by
  unfold firstMatchFrom at h
  obtain ⟨j', hj', hfj⟩ := List.exists_of_findSome?_eq_some h
  cases hf : f j' with
  | none => rw [hf] at hfj; simp at hfj
  | some p =>
    rw [hf] at hfj
    obtain ⟨L', a'⟩ := p
    simp only [Option.map_some', Option.some.injEq, Prod.mk.injEq] at hfj
    obtain ⟨rfl, rfl, rfl⟩ := hfj
    exact hf

theorem execAllAux_mem {α : Type} {f : Nat → Option (Nat × α)} {len : Nat} :
    ∀ {fuel k : Nat} {pr : Nat × α}, pr ∈ execAllAux f len fuel k →
      ∃ L, f pr.1 = some (L, pr.2) := by
  intro fuel
  induction fuel with
  | zero => intro k pr h; simp [execAllAux] at h
  | succ fl ih =>
    intro k pr h
    rw [execAllAux] at h
    cases hm : firstMatchFrom f len k with
    | none => rw [hm] at h; simp at h
    | some t =>
      obtain ⟨j, L, a⟩ := t
      rw [hm] at h
      rcases List.mem_cons.mp h with h | h
      · subst h; exact ⟨L, firstMatchFrom_some hm⟩
      · exact ih h

theorem execAll_mem {α : Type} {f : Nat → Option (Nat × α)} {len : Nat}
    {pr : Nat × α} (h : pr ∈ execAll f len) :
    ∃ L, f pr.1 = some (L, pr.2) :=
  execAllAux_mem h

/-! ### Every matcher fails past the end of the string, so match indices
are in range -/

theorem divPositions_lt {l : List Char} {p : Nat}
    (hp : p ∈ divisionOperations.divPositions l) : p < l.length := by
  have h := List.mem_filter.mp hp
  exact List.mem_range.mp h.1

theorem queryMatchAt_none_of_ge {names : List (List Char)} {l : List Char}
    {j : Nat} (hle : l.length ≤ j) : queryFunctions.matchAt names l j = none := by
  have hnil : l.drop j = [] := List.drop_eq_nil_of_le hle
  simp only [queryFunctions.matchAt, hnil]
  split_ifs with hb
  · rfl
  · rw [List.findSome?_eq_none_iff]
    intro fn _
    by_cases hp : fn.isPrefixOf ([] : List Char)
    · simp [hp]
    · simp [hp]

theorem queryMatchAt_lt {names : List (List Char)} {l : List Char} {j : Nat}
    {pr : Nat × List Char} (h : queryFunctions.matchAt names l j = some pr) :
    j < l.length := by
  by_contra hc
  push_neg at hc
  rw [queryMatchAt_none_of_ge hc] at h
  exact Option.noConfusion h

theorem uniqueKeyMatchAt_none_of_ge {l : List Char} {j : Nat}
    (hle : l.length ≤ j) : uniqueKey.matchAt l j = none := by
  have hnil : l.drop j = [] := List.drop_eq_nil_of_le hle
  simp only [uniqueKey.matchAt, hnil]
  by_cases hp : uniqueKey.ciPrefixOf "uniqueKey".data ([] : List Char)
  · simp [hp]
  · simp [hp]

theorem uniqueKeyMatchAt_lt {l : List Char} {j : Nat} {pr : Nat × Unit}
    (h : uniqueKey.matchAt l j = some pr) : j < l.length := by
  by_contra hc
  push_neg at hc
  rw [uniqueKeyMatchAt_none_of_ge hc] at h
  exact Option.noConfusion h

theorem varMatchAt_none_of_ge {l : List Char} {j : Nat}
    (hle : l.length ≤ j) : variableNaming.matchAt l j = none := by
  have hnil : l.drop j = [] := List.drop_eq_nil_of_le hle
  have hkw : variableNaming.kwMatch [] = none := by decide
  have hvt : variableNaming.varTail [] = none := rfl
  simp only [variableNaming.matchAt, hnil, hkw, hvt]
  split_ifs with hb <;> rfl

theorem varMatchAt_lt {l : List Char} {j : Nat} {pr : Nat × List Char}
    (h : variableNaming.matchAt l j = some pr) : j < l.length := by
  by_contra hc
  push_neg at hc
  rw [varMatchAt_none_of_ge hc] at h
  exact Option.noConfusion h

theorem nodeMatchAt_none_of_ge {library l : List Char} {j : Nat}
    (hle : l.length ≤ j) : nonOptimalNodeAccess.matchAt library l j = none := by
  have hnil : l.drop j = [] := List.drop_eq_nil_of_le hle
  simp only [nonOptimalNodeAccess.matchAt, hnil]
  by_cases hp : library.isPrefixOf ([] : List Char)
  · simp [hp]
  · simp [hp]

theorem nodeMatchAt_lt {library l : List Char} {j : Nat}
    {pr : Nat × (List Char × List Char)}
    (h : nonOptimalNodeAccess.matchAt library l j = some pr) : j < l.length := by
  by_contra hc
  push_neg at hc
  rw [nodeMatchAt_none_of_ge hc] at h
  exact Option.noConfusion h

theorem nullAccessMatchAt_none_of_ge {l : List Char} {j : Nat}
    (hle : l.length ≤ j) : nullAccessProtection.matchAt l j = none := by
  have hnil : l.drop j = [] := List.drop_eq_nil_of_le hle
  simp only [nullAccessProtection.matchAt, hnil]
  rfl

theorem nullAccessMatchAt_lt {l : List Char} {j : Nat}
    {pr : Nat × (List Char × List Char)}
    (h : nullAccessProtection.matchAt l j = some pr) : j < l.length := by
  by_contra hc
  push_neg at hc
  rw [nullAccessMatchAt_none_of_ge hc] at h
  exact Option.noConfusion h

theorem mathMatchAt_none_of_ge {l : List Char} {j : Nat}
    (hle : l.length ≤ j) : mathOperationsParens.matchAt l j = none := by
  have hnil : l.drop j = [] := List.drop_eq_nil_of_le hle
  simp only [mathOperationsParens.matchAt, hnil]
  rfl

theorem mathMatchAt_lt {l : List Char} {j : Nat} {pr : Nat × Nat}
    (h : mathOperationsParens.matchAt l j = some pr) : j < l.length := by
  by_contra hc
  push_neg at hc
  rw [mathMatchAt_none_of_ge hc] at h
  exact Option.noConfusion h

/-! ### Captured `original` texts are substrings of the masked line -/

theorem varTail_prefixOf {s : List Char} {t : Nat} {v : List Char}
    (h : variableNaming.varTail s = some (t, v)) : v <+: s := by
  simp only [variableNaming.varTail] at h
  split at h
  · simp at h
  · split at h
    · simp only [Option.some.injEq, Prod.mk.injEq] at h
      obtain ⟨-, hv⟩ := h
      rw [← hv]
      exact List.take_prefix _ _
    · simp at h

theorem varMatchAt_infixOf {l : List Char} {j t : Nat} {v : List Char}
    (h : variableNaming.matchAt l j = some (t, v)) : v <:+: l := by
  simp only [variableNaming.matchAt] at h
  split_ifs at h with hwb
  split at h
  · split at h
    · rename_i tLen varName heq
      simp only [Option.some.injEq, Prod.mk.injEq] at h
      obtain ⟨-, hv⟩ := h
      have hp := varTail_prefixOf heq
      rw [List.drop_drop] at hp
      exact (hv ▸ hp).isInfix.trans (List.drop_suffix _ _).isInfix
    · exact (varTail_prefixOf h).isInfix.trans (List.drop_suffix _ _).isInfix
  · exact (varTail_prefixOf h).isInfix.trans (List.drop_suffix _ _).isInfix

theorem nodeMatchAt_infixOf {library l : List Char} {j t : Nat}
    {nodeName fullMatch : List Char}
    (h : nonOptimalNodeAccess.matchAt library l j =
      some (t, (nodeName, fullMatch))) : fullMatch <:+: l := by
  simp only [nonOptimalNodeAccess.matchAt] at h
  split_ifs at h with hpre
  split at h
  · rename_i r heq
    split at h
    · rename_i k hfind
      simp only [Option.some.injEq, Prod.mk.injEq] at h
      obtain ⟨-, -, hfm⟩ := h
      have hlib : library <+: l.drop j := List.isPrefixOf_iff_prefix.mp hpre
      have hs : l.drop j = library ++ '.' :: r := by
        have htk : library = (l.drop j).take library.length :=
          List.prefix_iff_eq_take.mp hlib
        calc l.drop j
            = (l.drop j).take library.length ++
              (l.drop j).drop library.length :=
              (List.take_append_drop _ _).symm
          _ = library ++ '.' :: r := by rw [← htk, heq]
      have hpre2 : fullMatch <+: l.drop j := by
        rw [← hfm, hs]
        exact ⟨r.drop k, by simp⟩
      exact hpre2.isInfix.trans (List.drop_suffix j l).isInfix
    · simp at h
  · simp at h

theorem nullAccessMatchAt_infixOf {l : List Char} {j t : Nat} {ob pr : List Char}
    (h : nullAccessProtection.matchAt l j = some (t, (ob, pr))) :
    ob ++ '.' :: pr <:+: l := by
  simp only [nullAccessProtection.matchAt] at h
  split at h
  · simp at h
  · rename_i n1 hid1
    split at h
    · rename_i r heq2
      split at h
      · simp at h
      · rename_i n2 hid2
        simp only [Option.some.injEq, Prod.mk.injEq] at h
        obtain ⟨-, hob, hpr⟩ := h
        have hs : l.drop j = ob ++ '.' :: r := by
          rw [← hob]
          calc l.drop j
              = (l.drop j).take n1 ++ (l.drop j).drop n1 :=
                (List.take_append_drop _ _).symm
            _ = (l.drop j).take n1 ++ '.' :: r := by rw [heq2]
        have hpre2 : ob ++ '.' :: pr <+: l.drop j := by
          rw [hs, ← hpr]
          exact ⟨r.drop n2, by simp⟩
        exact hpre2.isInfix.trans (List.drop_suffix j l).isInfix
    · simp at h

/-! ### Inversion helpers and per-rule loop shapes -/

theorem fst_ok_inv {ε α β : Type} {lo lst : α} {c : β}
    (h : ((Except.ok lo : Except ε α), c).1 = .ok lst) :
    lo = lst := by
  simpa using h

theorem fst_error_inv {ε α β : Type} {e : ε} {c : β} {lst : α}
    (h : ((Except.error e : Except ε α), c).1 = .ok lst) :
    False := by
  simp at h

theorem cons_pair_fst (x : Suggestion) (y : List Suggestion) (z : Nat) :
    ((x :: y, z) : List Suggestion × Nat).1 = x :: y := rfl

theorem removeStringLiterals_length (l : List Char) :
    (removeStringLiterals l).length = l.length :=
  removeStringLiteralsAux_length none false none l

theorem extractExpression_infixOf (l : List Char) (p : Nat) :
    divisionOperations.extractExpression l p <:+: l := by
  unfold divisionOperations.extractExpression
  exact (jsTrim_infixOf _).trans (slice_infixOf l _ _)

theorem queryCheckLoop_mem {rc : RuleConfig} {line : List Char} {n : Nat}
    {ms : List (Nat × List Char)} {c : Nat} {s : Suggestion}
    (hs : s ∈ (queryFunctions.checkLoop rc line n ms c).1) :
    s.rule = queryFunctions.name ∧ s.line = n ∧ ∃ pr ∈ ms, s.column = pr.1 := by
  induction ms generalizing c with
  | nil => simp [queryFunctions.checkLoop] at hs
  | cons m rest ih =>
    obtain ⟨p, fn⟩ := m
    simp only [queryFunctions.checkLoop] at hs
    split_ifs at hs with h1
    · obtain ⟨a, b, pr, hpr, hc⟩ := ih hs
      exact ⟨a, b, pr, List.mem_cons_of_mem _ hpr, hc⟩
    · rw [cons_pair_fst] at hs
      rcases List.mem_cons.mp hs with hs | hs
      · subst hs
        exact ⟨rfl, rfl, (p, fn), List.mem_cons_self _ _, rfl⟩
      · obtain ⟨a, b, pr, hpr, hc⟩ := ih hs
        exact ⟨a, b, pr, List.mem_cons_of_mem _ hpr, hc⟩

theorem uniqueKeyCheckLoop_mem {rc : RuleConfig} {line : List Char} {n : Nat}
    {ms : List (Nat × Unit)} {c : Nat} {s : Suggestion}
    (hs : s ∈ (uniqueKey.checkLoop rc line n ms c).1) :
    s.rule = uniqueKey.name ∧ s.line = n ∧ ∃ pr ∈ ms, s.column = pr.1 := by
  induction ms generalizing c with
  | nil => simp [uniqueKey.checkLoop] at hs
  | cons m rest ih =>
    obtain ⟨p, u⟩ := m
    simp only [uniqueKey.checkLoop] at hs
    split_ifs at hs with h1
    · obtain ⟨a, b, pr, hpr, hc⟩ := ih hs
      exact ⟨a, b, pr, List.mem_cons_of_mem _ hpr, hc⟩
    · rw [cons_pair_fst] at hs
      rcases List.mem_cons.mp hs with hs | hs
      · subst hs
        exact ⟨rfl, rfl, (p, u), List.mem_cons_self _ _, rfl⟩
      · obtain ⟨a, b, pr, hpr, hc⟩ := ih hs
        exact ⟨a, b, pr, List.mem_cons_of_mem _ hpr, hc⟩

theorem varCheckLoop_mem {rc : RuleConfig} {line : List Char} {n : Nat}
    {ms : List (Nat × List Char)} {c : Nat} {s : Suggestion}
    (hs : s ∈ (variableNaming.checkLoop rc line n ms c).1) :
    s.rule = variableNaming.name ∧ s.line = n ∧
      ∃ pr ∈ ms, s.column = pr.1 ∧ s.original = some pr.2 := by
  induction ms generalizing c with
  | nil => simp [variableNaming.checkLoop] at hs
  | cons m rest ih =>
    obtain ⟨p, vn⟩ := m
    simp only [variableNaming.checkLoop] at hs
    split_ifs at hs with h1 h2
    · obtain ⟨a, b, pr, hpr, hc⟩ := ih hs
      exact ⟨a, b, pr, List.mem_cons_of_mem _ hpr, hc⟩
    · obtain ⟨a, b, pr, hpr, hc⟩ := ih hs
      exact ⟨a, b, pr, List.mem_cons_of_mem _ hpr, hc⟩
    · rw [cons_pair_fst] at hs
      rcases List.mem_cons.mp hs with hs | hs
      · subst hs
        exact ⟨rfl, rfl, (p, vn), List.mem_cons_self _ _, rfl, rfl⟩
      · obtain ⟨a, b, pr, hpr, hc⟩ := ih hs
        exact ⟨a, b, pr, List.mem_cons_of_mem _ hpr, hc⟩

theorem nodeCheckLoop_mem {rc : RuleConfig} {n : Nat}
    {ms : List (List Char × Nat × List Char × List Char)} {c : Nat}
    {s : Suggestion}
    (hs : s ∈ (nonOptimalNodeAccess.checkLoop rc n ms c).1) :
    s.rule = nonOptimalNodeAccess.name ∧ s.line = n ∧
      ∃ e ∈ ms, s.column = e.2.1 ∧ s.original = some e.2.2.2 := by
  induction ms generalizing c with
  | nil => simp [nonOptimalNodeAccess.checkLoop] at hs
  | cons m rest ih =>
    obtain ⟨library, p, nodeName, fullMatch⟩ := m
    simp only [nonOptimalNodeAccess.checkLoop] at hs
    rcases List.mem_cons.mp hs with hs | hs
    · subst hs
      exact ⟨rfl, rfl, (library, p, nodeName, fullMatch),
        List.mem_cons_self _ _, rfl, rfl⟩
    · obtain ⟨a, b, e, he, hc⟩ := ih hs
      exact ⟨a, b, e, List.mem_cons_of_mem _ he, hc⟩

theorem nullAccessCheckLoop_mem {rc : RuleConfig} {line lws : List Char}
    {n : Nat} {ms : List (Nat × (List Char × List Char))} {c : Nat}
    {s : Suggestion}
    (hs : s ∈ (nullAccessProtection.checkLoop rc line lws n ms c).1) :
    s.rule = nullAccessProtection.name ∧ s.line = n ∧
      ∃ pr ∈ ms, s.column = pr.1 ∧
        s.original = some (pr.2.1 ++ '.' :: pr.2.2) := by
  induction ms generalizing c with
  | nil => simp [nullAccessProtection.checkLoop] at hs
  | cons m rest ih =>
    obtain ⟨p, object, property⟩ := m
    simp only [nullAccessProtection.checkLoop] at hs
    split_ifs at hs with h1 h2 h3
    · obtain ⟨a, b, pr, hpr, hc⟩ := ih hs
      exact ⟨a, b, pr, List.mem_cons_of_mem _ hpr, hc⟩
    · obtain ⟨a, b, pr, hpr, hc⟩ := ih hs
      exact ⟨a, b, pr, List.mem_cons_of_mem _ hpr, hc⟩
    · obtain ⟨a, b, pr, hpr, hc⟩ := ih hs
      exact ⟨a, b, pr, List.mem_cons_of_mem _ hpr, hc⟩
    · rw [cons_pair_fst] at hs
      rcases List.mem_cons.mp hs with hs | hs
      · subst hs
        exact ⟨rfl, rfl, (p, object, property), List.mem_cons_self _ _, rfl,
          rfl⟩
      · obtain ⟨a, b, pr, hpr, hc⟩ := ih hs
        exact ⟨a, b, pr, List.mem_cons_of_mem _ hpr, hc⟩

theorem mathCheckLoop_mem {rc : RuleConfig} {line lws : List Char} {n : Nat}
    {ms : List (Nat × Nat)} {c : Nat} {s : Suggestion}
    (hs : s ∈ (mathOperationsParens.checkLoop rc line lws n ms c).1) :
    s.rule = mathOperationsParens.name ∧ s.line = n ∧
      ∃ pr ∈ ms, s.column = pr.1 ∧
        s.original = some ((lws.drop pr.1).take pr.2) := by
  induction ms generalizing c with
  | nil => simp [mathOperationsParens.checkLoop] at hs
  | cons m rest ih =>
    obtain ⟨p, len⟩ := m
    simp only [mathOperationsParens.checkLoop] at hs
    split_ifs at hs with h1 h2
    · obtain ⟨a, b, pr, hpr, hc⟩ := ih hs
      exact ⟨a, b, pr, List.mem_cons_of_mem _ hpr, hc⟩
    · obtain ⟨a, b, pr, hpr, hc⟩ := ih hs
      exact ⟨a, b, pr, List.mem_cons_of_mem _ hpr, hc⟩
    · rw [cons_pair_fst] at hs
      rcases List.mem_cons.mp hs with hs | hs
      · subst hs
        exact ⟨rfl, rfl, (p, len), List.mem_cons_self _ _, rfl, rfl⟩
      · obtain ⟨a, b, pr, hpr, hc⟩ := ih hs
        exact ⟨a, b, pr, List.mem_cons_of_mem _ hpr, hc⟩

/-! ### Per-rule `check` shape lemmas: every emitted suggestion carries the
rule's name, the scanned line number, an in-range column, and (where set)
an `original` that is a substring of the masked line -/

theorem divisionCheck_shape {line : List Char} {n : Nat}
    {A : List (List Char)} {ctx : Context} {cfg : Config} {c : Nat}
    {lst : List Suggestion}
    (h : (divisionOperations.check line n A ctx cfg c).1 = .ok lst) :
    ∀ s ∈ lst, s.rule = divisionOperations.name ∧ s.line = n ∧
      s.column < line.length ∧
      ∀ o, s.original = some o → o <:+: removeStringLiterals line := by
  simp only [divisionOperations.check] at h
  split at h
  · intro s hs; rw [← fst_ok_inv h] at hs; simp at hs
  · split at h
    · exact (fst_error_inv h).elim
    · split at h
      · intro s hs; rw [← fst_ok_inv h] at hs; simp at hs
      · split at h
        · intro s hs; rw [← fst_ok_inv h] at hs; simp at hs
        · split at h
          · intro s hs; rw [← fst_ok_inv h] at hs; simp at hs
          · intro s hs
            rw [← fst_ok_inv h] at hs
            obtain ⟨ha, hb, hcm, ho, -, -⟩ := divCheckLoop_mem hs
            refine ⟨ha, hb, ?_, ?_⟩
            · have hlt := divPositions_lt hcm
              rwa [removeStringLiterals_length] at hlt
            · intro o hoo
              rw [ho] at hoo
              exact Option.some.inj hoo ▸ extractExpression_infixOf _ _

theorem queryCheck_shape {line : List Char} {n : Nat}
    {A : List (List Char)} {ctx : Context} {cfg : Config} {c : Nat}
    {lst : List Suggestion}
    (h : (queryFunctions.check line n A ctx cfg c).1 = .ok lst) :
    ∀ s ∈ lst, s.rule = queryFunctions.name ∧ s.line = n ∧
      s.column < line.length := by
  simp only [queryFunctions.check] at h
  split at h
  · intro s hs; rw [← fst_ok_inv h] at hs; simp at hs
  · split at h
    · exact (fst_error_inv h).elim
    · split at h
      · intro s hs; rw [← fst_ok_inv h] at hs; simp at hs
      · split at h
        · intro s hs; rw [← fst_ok_inv h] at hs; simp at hs
        · split at h
          · intro s hs; rw [← fst_ok_inv h] at hs; simp at hs
          · intro s hs
            rw [← fst_ok_inv h] at hs
            obtain ⟨ha, hb, pr, hpr, hcol⟩ := queryCheckLoop_mem hs
            obtain ⟨L, hm⟩ := execAll_mem hpr
            refine ⟨ha, hb, ?_⟩
            rw [hcol]
            have hlt := queryMatchAt_lt hm
            rwa [removeStringLiterals_length] at hlt

theorem uniqueKeyCheck_shape {line : List Char} {n : Nat}
    {A : List (List Char)} {ctx : Context} {cfg : Config} {c : Nat}
    {lst : List Suggestion}
    (h : (uniqueKey.check line n A ctx cfg c).1 = .ok lst) :
    ∀ s ∈ lst, s.rule = uniqueKey.name ∧ s.line = n ∧
      s.column < line.length := by
  simp only [uniqueKey.check] at h
  split at h
  · intro s hs; rw [← fst_ok_inv h] at hs; simp at hs
  · split at h
    · exact (fst_error_inv h).elim
    · split at h
      · intro s hs; rw [← fst_ok_inv h] at hs; simp at hs
      · split at h
        · intro s hs; rw [← fst_ok_inv h] at hs; simp at hs
        · intro s hs
          rw [← fst_ok_inv h] at hs
          obtain ⟨ha, hb, pr, hpr, hcol⟩ := uniqueKeyCheckLoop_mem hs
          obtain ⟨L, hm⟩ := execAll_mem hpr
          refine ⟨ha, hb, ?_⟩
          rw [hcol]
          exact uniqueKeyMatchAt_lt hm

theorem varCheck_shape {line : List Char} {n : Nat}
    {A : List (List Char)} {ctx : Context} {cfg : Config} {c : Nat}
    {lst : List Suggestion}
    (h : (variableNaming.check line n A ctx cfg c).1 = .ok lst) :
    ∀ s ∈ lst, s.rule = variableNaming.name ∧ s.line = n ∧
      s.column < line.length ∧
      ∀ o, s.original = some o → o <:+: removeStringLiterals line := by
  simp only [variableNaming.check] at h
  split at h
  · intro s hs; rw [← fst_ok_inv h] at hs; simp at hs
  · split at h
    · exact (fst_error_inv h).elim
    · split at h
      · intro s hs; rw [← fst_ok_inv h] at hs; simp at hs
      · split at h
        · intro s hs; rw [← fst_ok_inv h] at hs; simp at hs
        · intro s hs
          rw [← fst_ok_inv h] at hs
          obtain ⟨ha, hb, pr, hpr, hcol, ho⟩ := varCheckLoop_mem hs
          obtain ⟨L, hm⟩ := execAll_mem hpr
          refine ⟨ha, hb, ?_, ?_⟩
          · rw [hcol]
            have hlt := varMatchAt_lt hm
            rwa [removeStringLiterals_length] at hlt
          · intro o hoo
            rw [ho] at hoo
            exact Option.some.inj hoo ▸ varMatchAt_infixOf hm

theorem nodeCheck_shape {line : List Char} {n : Nat}
    {A : List (List Char)} {ctx : Context} {cfg : Config} {c : Nat}
    {lst : List Suggestion}
    (h : (nonOptimalNodeAccess.check line n A ctx cfg c).1 = .ok lst) :
    ∀ s ∈ lst, s.rule = nonOptimalNodeAccess.name ∧ s.line = n ∧
      s.column < line.length ∧
      ∀ o, s.original = some o → o <:+: removeStringLiterals line := by
  simp only [nonOptimalNodeAccess.check] at h
  split at h
  · intro s hs; rw [← fst_ok_inv h] at hs; simp at hs
  · split at h
    · exact (fst_error_inv h).elim
    · split at h
      · intro s hs; rw [← fst_ok_inv h] at hs; simp at hs
      · split at h
        · intro s hs; rw [← fst_ok_inv h] at hs; simp at hs
        · intro s hs
          rw [← fst_ok_inv h] at hs
          obtain ⟨ha, hb, e, he, hcol, ho⟩ := nodeCheckLoop_mem hs
          simp only [nonOptimalNodeAccess.findNodeAccess] at he
          rw [List.mem_flatten] at he
          obtain ⟨blk, hblk, hebl⟩ := he
          rw [List.mem_map] at hblk
          obtain ⟨library, hlib, rfl⟩ := hblk
          rw [List.mem_map] at hebl
          obtain ⟨pr0, hpr0, rfl⟩ := hebl
          obtain ⟨p0, nn, fm⟩ := pr0
          obtain ⟨L, hm⟩ := execAll_mem hpr0
          refine ⟨ha, hb, ?_, ?_⟩
          · rw [hcol]
            have hlt := nodeMatchAt_lt hm
            rwa [removeStringLiterals_length] at hlt
          · intro o hoo
            rw [ho] at hoo
            exact Option.some.inj hoo ▸ nodeMatchAt_infixOf hm

theorem nullAccessCheck_shape {line : List Char} {n : Nat}
    {A : List (List Char)} {ctx : Context} {cfg : Config} {c : Nat}
    {lst : List Suggestion}
    (h : (nullAccessProtection.check line n A ctx cfg c).1 = .ok lst) :
    ∀ s ∈ lst, s.rule = nullAccessProtection.name ∧ s.line = n ∧
      s.column < line.length ∧
      ∀ o, s.original = some o → o <:+: removeStringLiterals line := by
  simp only [nullAccessProtection.check] at h
  split at h
  · intro s hs; rw [← fst_ok_inv h] at hs; simp at hs
  · split at h
    · exact (fst_error_inv h).elim
    · split at h
      · intro s hs; rw [← fst_ok_inv h] at hs; simp at hs
      · split at h
        · intro s hs; rw [← fst_ok_inv h] at hs; simp at hs
        · intro s hs
          rw [← fst_ok_inv h] at hs
          obtain ⟨ha, hb, pr, hpr, hcol, ho⟩ := nullAccessCheckLoop_mem hs
          obtain ⟨p0, ob, ppty⟩ := pr
          obtain ⟨L, hm⟩ := execAll_mem hpr
          refine ⟨ha, hb, ?_, ?_⟩
          · rw [hcol]
            have hlt := nullAccessMatchAt_lt hm
            rwa [removeStringLiterals_length] at hlt
          · intro o hoo
            rw [ho] at hoo
            exact Option.some.inj hoo ▸ nullAccessMatchAt_infixOf hm

theorem mathCheck_shape {line : List Char} {n : Nat}
    {A : List (List Char)} {ctx : Context} {cfg : Config} {c : Nat}
    {lst : List Suggestion}
    (h : (mathOperationsParens.check line n A ctx cfg c).1 = .ok lst) :
    ∀ s ∈ lst, s.rule = mathOperationsParens.name ∧ s.line = n ∧
      s.column < line.length ∧
      ∀ o, s.original = some o → o <:+: removeStringLiterals line := by
  simp only [mathOperationsParens.check] at h
  split at h
  · intro s hs; rw [← fst_ok_inv h] at hs; simp at hs
  · split at h
    · exact (fst_error_inv h).elim
    · split at h
      · intro s hs; rw [← fst_ok_inv h] at hs; simp at hs
      · split at h
        · intro s hs; rw [← fst_ok_inv h] at hs; simp at hs
        · intro s hs
          rw [← fst_ok_inv h] at hs
          obtain ⟨ha, hb, pr, hpr, hcol, ho⟩ := mathCheckLoop_mem hs
          obtain ⟨L, hm⟩ := execAll_mem hpr
          refine ⟨ha, hb, ?_, ?_⟩
          · rw [hcol]
            have hlt := mathMatchAt_lt hm
            rwa [removeStringLiterals_length] at hlt
          · intro o hoo
            rw [ho] at hoo
            exact Option.some.inj hoo ▸ slice_infixOf _ _ _

theorem cbRun_shape {rc : RuleConfig} {startLine col counter : Nat} :
    ∀ {rest : List (List Char)} {depth : Nat} {content chars : List Char}
      {res : Suggestion} {c' : Nat},
      extraneousBlocks.cbRun rc startLine col counter depth content chars
        rest = (some res, c') →
      res = extraneousBlocks.blockSuggestion rc startLine col (counter + 1) := by
  intro rest
  induction rest with
  | nil =>
    intro depth content chars res c' h
    simp only [extraneousBlocks.cbRun] at h
    split at h
    · split_ifs at h with h1
      · simp only [Prod.mk.injEq, Option.some.injEq] at h
        exact h.1.symm
      · simp at h
    · simp at h
  | cons l ls ih =>
    intro depth content chars res c' h
    simp only [extraneousBlocks.cbRun] at h
    split at h
    · split_ifs at h with h1
      · simp only [Prod.mk.injEq, Option.some.injEq] at h
        exact h.1.symm
      · simp at h
    · exact ih h

theorem cbPhase1_shape {rc : RuleConfig} {startLine : Nat} :
    ∀ {ls : List (List Char)} {counter : Nat} {res : Suggestion} {c' : Nat},
      extraneousBlocks.cbPhase1 rc startLine counter ls = (some res, c') →
      ∃ j, res = extraneousBlocks.blockSuggestion rc startLine j
        (counter + 1) := by
  intro ls
  induction ls with
  | nil =>
    intro counter res c' h
    simp [extraneousBlocks.cbPhase1] at h
  | cons l ls ih =>
    intro counter res c' h
    simp only [extraneousBlocks.cbPhase1] at h
    split at h
    · rename_i j hj
      exact ⟨j, cbRun_shape h⟩
    · exact ih h

theorem cbPhase1_first {rc : RuleConfig} {startLine counter : Nat}
    {l : List Char} {ls : List (List Char)} {j : Nat}
    (hj : findSubIdx (removeStringLiterals l) "block(".data = some j)
    {res : Suggestion} {c' : Nat}
    (h : extraneousBlocks.cbPhase1 rc startLine counter (l :: ls) =
      (some res, c')) :
    res = extraneousBlocks.blockSuggestion rc startLine j (counter + 1) := by
  simp only [extraneousBlocks.cbPhase1] at h
  rw [hj] at h
  exact cbRun_shape h

theorem extraneousCheck_line {line : List Char} {n : Nat}
    {A : List (List Char)} {ctx : Context} {cfg : Config} {c : Nat}
    {lst : List Suggestion}
    (h : (extraneousBlocks.check line n A ctx cfg c).1 = .ok lst) :
    ∀ s ∈ lst, s.rule = extraneousBlocks.name ∧ s.line = n ∧
      s.original = none := by
  simp only [extraneousBlocks.check] at h
  split at h
  · intro s hs; rw [← fst_ok_inv h] at hs; simp at hs
  · split at h
    · exact (fst_error_inv h).elim
    · split at h
      · intro s hs; rw [← fst_ok_inv h] at hs; simp at hs
      · split at h
        · intro s hs; rw [← fst_ok_inv h] at hs; simp at hs
        · intro s hs
          rw [← fst_ok_inv h] at hs
          rcases List.mem_append.mp hs with hs | hs3
          · rcases List.mem_append.mp hs with hs1 | hs2
            · -- the `block(` wrapper part
              split at hs1
              · split at hs1
                · rename_i res cc hcbf
                  rw [show ∀ (x : Suggestion) (z : Nat),
                      (([x], z) : List Suggestion × Nat).1 = [x] from
                      fun _ _ => rfl] at hs1
                  rcases List.mem_singleton.mp hs1 with rfl
                  obtain ⟨j, hres⟩ := cbPhase1_shape hcbf
                  rw [hres]
                  exact ⟨rfl, rfl, rfl⟩
                · simp at hs1
              · simp at hs1
            · -- the lone-`{` single-statement part
              split at hs2
              · split at hs2
                · split at hs2
                  · rw [show ∀ (x : Suggestion) (z : Nat),
                        (([x], z) : List Suggestion × Nat).1 = [x] from
                        fun _ _ => rfl] at hs2
                    rcases List.mem_singleton.mp hs2 with rfl
                    exact ⟨rfl, rfl, rfl⟩
                  · simp at hs2
                · split at hs2
                  · rw [show ∀ (x : Suggestion) (z : Nat),
                        (([x], z) : List Suggestion × Nat).1 = [x] from
                        fun _ _ => rfl] at hs2
                    rcases List.mem_singleton.mp hs2 with rfl
                    exact ⟨rfl, rfl, rfl⟩
                  · simp at hs2
              · simp at hs2
          · -- the empty-block part
            split at hs3
            · rw [show ∀ (x : Suggestion) (z : Nat),
                  (([x], z) : List Suggestion × Nat).1 = [x] from
                  fun _ _ => rfl] at hs3
              rcases List.mem_singleton.mp hs3 with rfl
              exact ⟨rfl, rfl, rfl⟩
            · simp at hs3

theorem extraneousCheck_shape {line : List Char} {n : Nat}
    {A : List (List Char)} {ctx : Context} {cfg : Config} {c : Nat}
    {lst : List Suggestion}
    (h : (extraneousBlocks.check line n A ctx cfg c).1 = .ok lst)
    (hdrop : A.drop (n - 1) = line :: A.drop n) :
    ∀ s ∈ lst, s.rule = extraneousBlocks.name ∧ s.line = n ∧
      s.column < line.length ∧ s.original = none := by
  simp only [extraneousBlocks.check] at h
  split at h
  · intro s hs; rw [← fst_ok_inv h] at hs; simp at hs
  · split at h
    · exact (fst_error_inv h).elim
    · split at h
      · intro s hs; rw [← fst_ok_inv h] at hs; simp at hs
      · split at h
        · intro s hs; rw [← fst_ok_inv h] at hs; simp at hs
        · intro s hs
          rw [← fst_ok_inv h] at hs
          rcases List.mem_append.mp hs with hs | hs3
          · rcases List.mem_append.mp hs with hs1 | hs2
            · -- the `block(` wrapper part
              split at hs1
              · rename_i hguard
                split at hs1
                · rename_i res cc hcbf
                  rw [show ∀ (x : Suggestion) (z : Nat),
                      (([x], z) : List Suggestion × Nat).1 = [x] from
                      fun _ _ => rfl] at hs1
                  rcases List.mem_singleton.mp hs1 with rfl
                  have hsub : containsSub (removeStringLiterals line)
                      "block(".data = true := containsSub_of_trim hguard
                  obtain ⟨j, hj⟩ := Option.isSome_iff_exists.mp hsub
                  rw [extraneousBlocks.checkBlockFunction, hdrop] at hcbf
                  have hres := cbPhase1_first hj hcbf
                  rw [hres]
                  refine ⟨rfl, rfl, ?_, rfl⟩
                  have hlt := findSubIdx_lt (by decide) hj
                  rwa [removeStringLiterals_length] at hlt
                · simp at hs1
              · simp at hs1
            · -- the lone-`{` single-statement part
              split at hs2
              · rename_i hcond
                split at hs2
                · split at hs2
                  · rw [show ∀ (x : Suggestion) (z : Nat),
                        (([x], z) : List Suggestion × Nat).1 = [x] from
                        fun _ _ => rfl] at hs2
                    rcases List.mem_singleton.mp hs2 with rfl
                    refine ⟨rfl, rfl, ?_, rfl⟩
                    have hne : line ≠ [] := by
                      intro he
                      subst he
                      exact absurd hcond.1 (by decide)
                    exact List.length_pos.mpr hne
                  · simp at hs2
                · split at hs2
                  · rw [show ∀ (x : Suggestion) (z : Nat),
                        (([x], z) : List Suggestion × Nat).1 = [x] from
                        fun _ _ => rfl] at hs2
                    rcases List.mem_singleton.mp hs2 with rfl
                    refine ⟨rfl, rfl, ?_, rfl⟩
                    have hne : line ≠ [] := by
                      intro he
                      subst he
                      exact absurd hcond.1 (by decide)
                    exact List.length_pos.mpr hne
                  · simp at hs2
              · simp at hs2
          · -- the empty-block part
            split at hs3
            · rename_i hcond
              rw [show ∀ (x : Suggestion) (z : Nat),
                  (([x], z) : List Suggestion × Nat).1 = [x] from
                  fun _ _ => rfl] at hs3
              rcases List.mem_singleton.mp hs3 with rfl
              refine ⟨rfl, rfl, ?_, rfl⟩
              have hne : line ≠ [] := by
                intro he
                subst he
                rcases hcond with hc | hc
                · exact absurd hc (by decide)
                · exact absurd hc.1 (by decide)
              exact List.length_pos.mpr hne
            · simp at hs3

/-! ### From one rule's pass to the whole analysis -/

theorem runPass_mem {chk : CheckFn} {allLines : List (List Char)}
    {ctx : Context} {config : Config} :
    ∀ {i : Nat} {rem : List (List Char)} {c : Nat} {out : List Suggestion}
      {c' : Nat}, 1 ≤ i → rem = allLines.drop (i - 1) →
      runPass chk allLines ctx config i rem c = (.ok out, c') →
      ∀ s ∈ out, ∃ k l c0 lst c1, allLines.get? k = some l ∧
        chk l (k + 1) allLines ctx config c0 = (.ok lst, c1) ∧ s ∈ lst := by
  intro i rem
  induction rem generalizing i with
  | nil =>
    intro c out c' hi hrem h
    simp only [runPass, Prod.mk.injEq, Except.ok.injEq] at h
    intro s hs
    rw [← h.1] at hs
    simp at hs
  | cons l rest ih =>
    intro c out c' hi hrem h
    simp only [runPass] at h
    split at h
    · simp at h
    · rename_i out1 c1 heq1
      split at h
      · simp at h
      · rename_i lst c2 heq2
        simp only [Prod.mk.injEq, Except.ok.injEq] at h
        intro s hs
        rw [← h.1] at hs
        rcases List.mem_append.mp hs with hs | hs
        · have hg : allLines.get? (i - 1) = some l := by
            have hgd : (allLines.drop (i - 1)).get? 0 =
                allLines.get? (i - 1 + 0) := by
              simp [List.get?_eq_getElem?, List.getElem?_drop]
            rw [← hrem] at hgd
            simpa using hgd.symm
          have hik : i - 1 + 1 = i := by omega
          exact ⟨i - 1, l, c, out1, c1, hg, by rw [hik]; exact heq1, hs⟩
        · have hrest : rest = allLines.drop (i + 1 - 1) := by
            have h2 := congrArg List.tail hrem
            rw [List.tail_drop] at h2
            have hi1 : i - 1 + 1 = i := by omega
            rw [hi1] at h2
            simpa using h2
          exact ih (by omega) hrest heq2 s hs

theorem runPass_sorted {chk : CheckFn} {allLines : List (List Char)}
    {ctx : Context} {config : Config}
    (hline : ∀ l i c lst c', chk l i allLines ctx config c = (.ok lst, c') →
      ∀ s ∈ lst, s.line = i) :
    ∀ {i : Nat} {rem : List (List Char)} {c : Nat} {out : List Suggestion}
      {c' : Nat},
      runPass chk allLines ctx config i rem c = (.ok out, c') →
      (∀ s ∈ out, i ≤ s.line) ∧
      out.Pairwise (fun a b => a.line ≤ b.line) := by
  intro i rem
  induction rem generalizing i with
  | nil =>
    intro c out c' h
    simp only [runPass, Prod.mk.injEq, Except.ok.injEq] at h
    rw [← h.1]
    exact ⟨by simp, List.Pairwise.nil⟩
  | cons l rest ih =>
    intro c out c' h
    simp only [runPass] at h
    split at h
    · simp at h
    · rename_i out1 c1 heq1
      split at h
      · simp at h
      · rename_i lst c2 heq2
        simp only [Prod.mk.injEq, Except.ok.injEq] at h
        rw [← h.1]
        have h1 := hline l i c out1 c1 heq1
        obtain ⟨h2, h3⟩ := ih heq2
        constructor
        · intro s hs
          rcases List.mem_append.mp hs with hs | hs
          · rw [h1 s hs]
          · exact Nat.le_of_succ_le (h2 s hs)
        · rw [List.pairwise_append]
          refine ⟨?_, h3, ?_⟩
          · exact List.pairwise_of_forall_mem_list (fun a ha b hb => by
              rw [h1 a ha, h1 b hb])
          · intro a ha b hb
            rw [h1 a ha]
            exact Nat.le_of_succ_le (h2 b hb)

theorem passStep_ok1 {chk : CheckFn} {allLines : List (List Char)}
    {ctx : Context} {config : Config} {getC : Counters → Nat}
    {setC : Counters → Nat → Counters}
    {acc : Except JsErr (List Suggestion) × Counters} {out : List Suggestion}
    (h : (passStep chk allLines ctx config getC setC acc).1 = .ok out) :
    ∃ sofar out1 c c', acc.1 = .ok sofar ∧
      runPass chk allLines ctx config 1 allLines c = (.ok out1, c') ∧
      out = sofar ++ out1 := by
  unfold passStep at h
  split at h
  · simp at h
  · rename_i sofar cs
    split at h
    · simp at h
    · rename_i out1 c' heq2
      exact ⟨sofar, out1, getC cs, c', rfl, heq2, (fst_ok_inv h).symm⟩

theorem analyzeFinish_ok1 {st : Except JsErr (List Suggestion) × Counters}
    {r : AnalysisResult} (h : (analyzeFinish st).1 = .ok r) :
    ∃ suggs, st.1 = .ok suggs ∧ r.suggestions = suggs := by
  unfold analyzeFinish at h
  split at h
  · simp at h
  · rename_i suggs cs
    refine ⟨suggs, rfl, ?_⟩
    have h2 := fst_ok_inv h
    rw [← h2]

theorem analyzeDSL_decompose {w : Window} {code : List Char}
    {options : Options} {cs : Counters} {r : AnalysisResult}
    (h : (analyzeDSL w code options cs).1 = .ok r) :
    ∃ o1 o2 o3 o4 o5 o6 o7 o8,
      r.suggestions = o1 ++ o2 ++ o3 ++ o4 ++ o5 ++ o6 ++ o7 ++ o8 ∧
      PassOut divisionOperations.check (splitOnNl code)
        (resolveConfig w options) o1 ∧
      PassOut queryFunctions.check (splitOnNl code)
        (resolveConfig w options) o2 ∧
      PassOut uniqueKey.check (splitOnNl code)
        (resolveConfig w options) o3 ∧
      PassOut variableNaming.check (splitOnNl code)
        (resolveConfig w options) o4 ∧
      PassOut nonOptimalNodeAccess.check (splitOnNl code)
        (resolveConfig w options) o5 ∧
      PassOut nullAccessProtection.check (splitOnNl code)
        (resolveConfig w options) o6 ∧
      PassOut mathOperationsParens.check (splitOnNl code)
        (resolveConfig w options) o7 ∧
      PassOut extraneousBlocks.check (splitOnNl code)
        (resolveConfig w options) o8 := by
  simp only [analyzeDSL] at h
  obtain ⟨suggs, h8, hr⟩ := analyzeFinish_ok1 h
  obtain ⟨s7, o8, c8, c8', ha7, hp8, he8⟩ := passStep_ok1 h8
  obtain ⟨s6, o7, c7, c7', ha6, hp7, he7⟩ := passStep_ok1 ha7
  obtain ⟨s5, o6, c6, c6', ha5, hp6, he6⟩ := passStep_ok1 ha6
  obtain ⟨s4, o5, c5, c5', ha4, hp5, he5⟩ := passStep_ok1 ha5
  obtain ⟨s3, o4, c4, c4', ha3, hp4, he4⟩ := passStep_ok1 ha4
  obtain ⟨s2, o3, c3, c3', ha2, hp3, he3⟩ := passStep_ok1 ha3
  obtain ⟨s1, o2, c2, c2', ha1, hp2, he2⟩ := passStep_ok1 ha2
  obtain ⟨s0, o1, c1, c1', ha0, hp1, he1⟩ := passStep_ok1 ha1
  have hs0 : s0 = [] := (fst_ok_inv ha0).symm
  refine ⟨o1, o2, o3, o4, o5, o6, o7, o8, ?_, ⟨c1, c1', hp1⟩, ⟨c2, c2', hp2⟩,
    ⟨c3, c3', hp3⟩, ⟨c4, c4', hp4⟩, ⟨c5, c5', hp5⟩, ⟨c6, c6', hp6⟩,
    ⟨c7, c7', hp7⟩, ⟨c8, c8', hp8⟩⟩
  rw [hr, he8, he7, he6, he5, he4, he3, he2, he1, hs0]
  simp

theorem blocks_append {acc blk : List Suggestion} {k : Nat} {nm : List Char}
    (hacc : acc.Pairwise sugOrdered)
    (haccIdx : ∀ a ∈ acc, ruleIdx a.rule < k)
    (hblkRule : ∀ b ∈ blk, b.rule = nm) (hnm : ruleIdx nm = k)
    (hblkSorted : blk.Pairwise (fun a b => a.line ≤ b.line)) :
    (acc ++ blk).Pairwise sugOrdered ∧
      ∀ a ∈ acc ++ blk, ruleIdx a.rule < k + 1 := by
  constructor
  · rw [List.pairwise_append]
    refine ⟨hacc, ?_, ?_⟩
    · exact hblkSorted.imp_of_mem (fun ha hb hline =>
        Or.inr ⟨by rw [hblkRule _ ha, hblkRule _ hb], hline⟩)
    · intro a ha b hb
      exact Or.inl (by rw [hblkRule b hb, hnm]; exact haccIdx a ha)
  · intro a ha
    rcases List.mem_append.mp ha with hm | hm
    · exact Nat.lt_succ_of_lt (haccIdx a hm)
    · rw [hblkRule a hm, hnm]
      exact Nat.lt_succ_self k

theorem get?_some_lt {α : Type} {l : List α} {k : Nat} {a : α}
    (h : l.get? k = some a) : k < l.length := by
  by_contra hc
  push_neg at hc
  rw [List.get?_eq_none.mpr hc] at h
  exact Option.noConfusion h

theorem passOut_case {chk : CheckFn} {lines : List (List Char)}
    {config : Config} {out : List Suggestion} {s : Suggestion}
    (hp : PassOut chk lines config out) (hs : s ∈ out) :
    ∃ k l c0 lst c1, lines.get? k = some l ∧
      chk l (k + 1) lines { lines := lines, totalLines := lines.length }
        config c0 = (.ok lst, c1) ∧ s ∈ lst := by
  obtain ⟨c, c', hrun⟩ := hp
  exact runPass_mem (le_refl 1) (by simp) hrun s hs

theorem passOut_block {chk : CheckFn} {lines : List (List Char)}
    {config : Config} {out : List Suggestion} {nm : List Char}
    (hshape : ∀ (l : List Char) (n : Nat) (A : List (List Char))
      (ctx : Context) (cfg : Config) (c : Nat) (lst : List Suggestion),
      (chk l n A ctx cfg c).1 = .ok lst →
      ∀ s ∈ lst, s.rule = nm ∧ s.line = n)
    (hp : PassOut chk lines config out) :
    (∀ b ∈ out, b.rule = nm) ∧
      out.Pairwise (fun a b => a.line ≤ b.line) := by
  obtain ⟨c, c', hrun⟩ := hp
  constructor
  · intro b hb
    obtain ⟨k, l, c0, lst, c1, hg, hchk, hmem⟩ :=
      runPass_mem (le_refl 1) (by simp) hrun b hb
    exact (hshape _ _ _ _ _ _ _ (congrArg Prod.fst hchk) b hmem).1
  · exact (runPass_sorted (fun l i c0 lst c1 hchk s hs =>
      (hshape _ _ _ _ _ _ _ (congrArg Prod.fst hchk) s hs).2) hrun).2

/-- C8: for every input code and configuration, the suggestion list
returned by a successful `analyzeDSL` run is in rule-major (registration)
order and, within one rule, in ascending line order; the engine never
re-sorts the list.  Formally the list is pairwise `sugOrdered`. -/
theorem C8_rule_major_line_order {w : Window} {code : List Char}
    {options : Options} {cs : Counters} {r : AnalysisResult}
    (h : (analyzeDSL w code options cs).1 = .ok r) :
    r.suggestions.Pairwise sugOrdered := by
  obtain ⟨o1, o2, o3, o4, o5, o6, o7, o8, hsum, hp1, hp2, hp3, hp4, hp5,
    hp6, hp7, hp8⟩ := analyzeDSL_decompose h
  have hb1 := passOut_block (fun l n A ctx cfg c lst hh s hs =>
    ⟨(divisionCheck_shape hh s hs).1, (divisionCheck_shape hh s hs).2.1⟩) hp1
  have hb2 := passOut_block (fun l n A ctx cfg c lst hh s hs =>
    ⟨(queryCheck_shape hh s hs).1, (queryCheck_shape hh s hs).2.1⟩) hp2
  have hb3 := passOut_block (fun l n A ctx cfg c lst hh s hs =>
    ⟨(uniqueKeyCheck_shape hh s hs).1, (uniqueKeyCheck_shape hh s hs).2.1⟩) hp3
  have hb4 := passOut_block (fun l n A ctx cfg c lst hh s hs =>
    ⟨(varCheck_shape hh s hs).1, (varCheck_shape hh s hs).2.1⟩) hp4
  have hb5 := passOut_block (fun l n A ctx cfg c lst hh s hs =>
    ⟨(nodeCheck_shape hh s hs).1, (nodeCheck_shape hh s hs).2.1⟩) hp5
  have hb6 := passOut_block (fun l n A ctx cfg c lst hh s hs =>
    ⟨(nullAccessCheck_shape hh s hs).1,
     (nullAccessCheck_shape hh s hs).2.1⟩) hp6
  have hb7 := passOut_block (fun l n A ctx cfg c lst hh s hs =>
    ⟨(mathCheck_shape hh s hs).1, (mathCheck_shape hh s hs).2.1⟩) hp7
  have hb8 := passOut_block (fun l n A ctx cfg c lst hh s hs =>
    ⟨(extraneousCheck_line hh s hs).1,
     (extraneousCheck_line hh s hs).2.1⟩) hp8
  have h0 : (([] : List Suggestion).Pairwise sugOrdered ∧
      ∀ a ∈ ([] : List Suggestion), ruleIdx a.rule < 0) :=
    ⟨List.Pairwise.nil, by simp⟩
  have t1 := blocks_append h0.1 h0.2 hb1.1 (by decide) hb1.2
  have t2 := blocks_append t1.1 t1.2 hb2.1 (by decide) hb2.2
  have t3 := blocks_append t2.1 t2.2 hb3.1 (by decide) hb3.2
  have t4 := blocks_append t3.1 t3.2 hb4.1 (by decide) hb4.2
  have t5 := blocks_append t4.1 t4.2 hb5.1 (by decide) hb5.2
  have t6 := blocks_append t5.1 t5.2 hb6.1 (by decide) hb6.2
  have t7 := blocks_append t6.1 t6.2 hb7.1 (by decide) hb7.2
  have t8 := blocks_append t7.1 t7.2 hb8.1 (by decide) hb8.2
  rw [hsum]
  have hnil : ([] : List Suggestion) ++ o1 ++ o2 ++ o3 ++ o4 ++ o5 ++ o6 ++
      o7 ++ o8 = o1 ++ o2 ++ o3 ++ o4 ++ o5 ++ o6 ++ o7 ++ o8 := by simp
  rw [← hnil]
  exact t8.1

/-- C8 witness: on `a = b / c` under the division-only config the result
list (a single division suggestion) is pairwise `sugOrdered`. -/
theorem C8_witness : c7Result.suggestions.Pairwise sugOrdered :=
  @C8_rule_major_line_order c1Window c1Code {} {} c7Result rfl

/-- C7 (amended): every suggestion returned by a successful `analyzeDSL`
run has a `line` that indexes a line of the analyzed source (1-based) and
a `column` that is a valid 0-indexed offset into that line; and for every
rule except `queryFunctions` and `uniqueKey` (whose `original` fields are
fixed literal texts that need not occur verbatim), a present `original`
is a substring of the string-literal-masked line — though not necessarily
the substring located at `column` (see the counterexample). -/
theorem C7_positions_valid {w : Window} {code : List Char}
    {options : Options} {cs : Counters} {r : AnalysisResult}
    (h : (analyzeDSL w code options cs).1 = .ok r) :
    ∀ s ∈ r.suggestions,
      1 ≤ s.line ∧ s.line ≤ (splitOnNl code).length ∧
      ∃ l, (splitOnNl code).get? (s.line - 1) = some l ∧
        s.column < l.length ∧
        (s.rule ≠ queryFunctions.name → s.rule ≠ uniqueKey.name →
          ∀ o, s.original = some o → o <:+: removeStringLiterals l) := by
  obtain ⟨o1, o2, o3, o4, o5, o6, o7, o8, hsum, hp1, hp2, hp3, hp4, hp5,
    hp6, hp7, hp8⟩ := analyzeDSL_decompose h
  intro s hs
  rw [hsum] at hs
  rcases List.mem_append.mp hs with hs | hs8
  rotate_left
  · -- extraneousBlocks
    obtain ⟨k, l, c0, lst, c1, hg, hchk, hmem⟩ := passOut_case hp8 hs8
    have hdrop := drop_eq_cons_of_get? hg
    obtain ⟨hrule, hline, hcol, hnone⟩ :=
      extraneousCheck_shape (congrArg Prod.fst hchk) hdrop s hmem
    have hk := get?_some_lt hg
    refine ⟨by rw [hline]; omega, by rw [hline]; omega, l, ?_, hcol, ?_⟩
    · rw [hline]; exact hg
    · intro _ _ o ho
      rw [hnone] at ho
      exact Option.noConfusion ho
  rcases List.mem_append.mp hs with hs | hs7
  rotate_left
  · -- mathOperationsParens
    obtain ⟨k, l, c0, lst, c1, hg, hchk, hmem⟩ := passOut_case hp7 hs7
    obtain ⟨hrule, hline, hcol, horig⟩ :=
      mathCheck_shape (congrArg Prod.fst hchk) s hmem
    have hk := get?_some_lt hg
    refine ⟨by rw [hline]; omega, by rw [hline]; omega, l, ?_, hcol, ?_⟩
    · rw [hline]; exact hg
    · intro _ _ o ho
      exact horig o ho
  rcases List.mem_append.mp hs with hs | hs6
  rotate_left
  · -- nullAccessProtection
    obtain ⟨k, l, c0, lst, c1, hg, hchk, hmem⟩ := passOut_case hp6 hs6
    obtain ⟨hrule, hline, hcol, horig⟩ :=
      nullAccessCheck_shape (congrArg Prod.fst hchk) s hmem
    have hk := get?_some_lt hg
    refine ⟨by rw [hline]; omega, by rw [hline]; omega, l, ?_, hcol, ?_⟩
    · rw [hline]; exact hg
    · intro _ _ o ho
      exact horig o ho
  rcases List.mem_append.mp hs with hs | hs5
  rotate_left
  · -- nonOptimalNodeAccess
    obtain ⟨k, l, c0, lst, c1, hg, hchk, hmem⟩ := passOut_case hp5 hs5
    obtain ⟨hrule, hline, hcol, horig⟩ :=
      nodeCheck_shape (congrArg Prod.fst hchk) s hmem
    have hk := get?_some_lt hg
    refine ⟨by rw [hline]; omega, by rw [hline]; omega, l, ?_, hcol, ?_⟩
    · rw [hline]; exact hg
    · intro _ _ o ho
      exact horig o ho
  rcases List.mem_append.mp hs with hs | hs4
  rotate_left
  · -- variableNaming
    obtain ⟨k, l, c0, lst, c1, hg, hchk, hmem⟩ := passOut_case hp4 hs4
    obtain ⟨hrule, hline, hcol, horig⟩ :=
      varCheck_shape (congrArg Prod.fst hchk) s hmem
    have hk := get?_some_lt hg
    refine ⟨by rw [hline]; omega, by rw [hline]; omega, l, ?_, hcol, ?_⟩
    · rw [hline]; exact hg
    · intro _ _ o ho
      exact horig o ho
  rcases List.mem_append.mp hs with hs | hs3
  rotate_left
  · -- uniqueKey: `original` is the fixed text "uniqueKey"
    obtain ⟨k, l, c0, lst, c1, hg, hchk, hmem⟩ := passOut_case hp3 hs3
    obtain ⟨hrule, hline, hcol⟩ :=
      uniqueKeyCheck_shape (congrArg Prod.fst hchk) s hmem
    have hk := get?_some_lt hg
    refine ⟨by rw [hline]; omega, by rw [hline]; omega, l, ?_, hcol, ?_⟩
    · rw [hline]; exact hg
    · intro _ hu o ho
      exact absurd hrule hu
  rcases List.mem_append.mp hs with hs1 | hs2
  · -- divisionOperations
    obtain ⟨k, l, c0, lst, c1, hg, hchk, hmem⟩ := passOut_case hp1 hs1
    obtain ⟨hrule, hline, hcol, horig⟩ :=
      divisionCheck_shape (congrArg Prod.fst hchk) s hmem
    have hk := get?_some_lt hg
    refine ⟨by rw [hline]; omega, by rw [hline]; omega, l, ?_, hcol, ?_⟩
    · rw [hline]; exact hg
    · intro _ _ o ho
      exact horig o ho
  · -- queryFunctions: `original` is the fixed text `name + '('`
    obtain ⟨k, l, c0, lst, c1, hg, hchk, hmem⟩ := passOut_case hp2 hs2
    obtain ⟨hrule, hline, hcol⟩ :=
      queryCheck_shape (congrArg Prod.fst hchk) s hmem
    have hk := get?_some_lt hg
    refine ⟨by rw [hline]; omega, by rw [hline]; omega, l, ?_, hcol, ?_⟩
    · rw [hline]; exact hg
    · intro hq _ o ho
      exact absurd hrule hq

/-- C7 witness: the division suggestion on `a = b / c` has a valid line,
a valid column and an `original` that is a substring of the (identical)
masked line. -/
theorem C7_witness :
    1 ≤ c2WitnessSugg.line ∧
    c2WitnessSugg.line ≤ (splitOnNl c1Code).length ∧
    ∃ l, (splitOnNl c1Code).get? (c2WitnessSugg.line - 1) = some l ∧
      c2WitnessSugg.column < l.length ∧
      (c2WitnessSugg.rule ≠ queryFunctions.name →
        c2WitnessSugg.rule ≠ uniqueKey.name →
        ∀ o, c2WitnessSugg.original = some o →
          o <:+: removeStringLiterals l) :=
  @C7_positions_valid c1Window c1Code {} {} c7Result rfl c2WitnessSugg
    (List.mem_singleton.mpr rfl)

/-- C7 counterexample to the claim as stated: on `a = b / c` the division
suggestion has `column = 6` and `original = "b / c"`, but the text of the
analyzed line at offset 6 is not `"b / c"` (the expression starts at
offset 4), and string-literal masking leaves this line unchanged, so the
mismatch is not masking whitespace. -/
theorem C7_counterexample :
    (analyzeDSL c1Window c1Code {} {}).1 = .ok c7Result ∧
    c2WitnessSugg ∈ c7Result.suggestions ∧
    c2WitnessSugg.original = some "b / c".data ∧
    (splitOnNl c1Code).get? (c2WitnessSugg.line - 1) = some c1Code ∧
    removeStringLiterals c1Code = c1Code ∧
    (c1Code.drop c2WitnessSugg.column).take "b / c".data.length ≠
      "b / c".data :=
  ⟨rfl, by decide, by decide, by decide, by decide, by decide⟩

end DSLSpec
